import Mathlib

/-!
Verification development for the heimdall provider orchestration core.
The definitions below are shallow embeddings of the TypeScript sources:
the cache (src unnamed part 005), the rate limiter and the torrent
polling scheduler (src unnamed part 006), and the debrid manager and
real-debrid provider (src/lib/debrid). Clocks are explicit arguments
standing for Date.now at the corresponding call sites; network calls
are oracle arguments standing for the awaited responses; callbacks are
modelled as emitted events.
-/

namespace Heimdall

/-! ## Association list model of the JS Map and lru-cache stores.
The library level details of lru-cache (capacity eviction, instance
ttl, recency bookkeeping) are abstracted into a plain keyed store; the
class level logic written in the repository is modelled exactly.
JS Map keys are unique, so deletion is modelled as removing every
binding of the key. -/

def mapSet {α : Type} : List (String × α) → String → α → List (String × α)
  | [], k, v => [(k, v)]
  | (k', v') :: rest, k, v =>
      if k' = k then (k, v) :: rest else (k', v') :: mapSet rest k v

def mapGet {α : Type} : List (String × α) → String → Option α
  | [], _ => none
  | (k', v') :: rest, k => if k' = k then some v' else mapGet rest k

def mapDelete {α : Type} (l : List (String × α)) (k : String) : List (String × α) :=
  l.filter (fun kv => kv.1 ≠ k)

/-- In place update of an existing binding, modelling JS mutation of an
object already held by the map: a missing key is left untouched. -/
def mapUpdate {α : Type} : List (String × α) → String → α → List (String × α)
  | [], _, _ => []
  | (k', v') :: rest, k, v =>
      if k' = k then (k, v) :: mapUpdate rest k v else (k', v') :: mapUpdate rest k v

/-! ## MemoryCache, from src unnamed part 005 lines 9 to 48. -/

/-- CacheItem: stored value with its insertion timestamp and ttl in
milliseconds. -/
structure CacheItem (α : Type) where
  data : α
  timestamp : Nat
  ttl : Nat
deriving Repr, DecidableEq

/-- Default ttl used by MemoryCache.set when the given ttl is falsy:
5 minutes in milliseconds. -/
def defaultTtl : Nat := 5 * 60 * 1000

abbrev MemoryCache (α : Type) := List (String × CacheItem α)

/-- MemoryCache.set, part 005 lines 27 to 34: stores the value with
timestamp now; the expression ttl or default makes a falsy ttl (absent
or 0) fall back to the 5 minute default. -/
def MemoryCache.set {α : Type} (c : MemoryCache α) (now : Nat) (key : String)
    (value : α) (ttl : Option Nat) : MemoryCache α :=
  let ttlVal : Nat :=
    match ttl with
    | some t => if t = 0 then defaultTtl else t
    | none => defaultTtl
  mapSet c key ⟨value, now, ttlVal⟩

/-- MemoryCache.get, part 005 lines 36 to 48: a missing key yields none;
an entry with now minus timestamp greater than ttl is deleted and yields
none; otherwise the stored data is returned. The possibly updated store
is returned alongside the result. -/
def MemoryCache.get {α : Type} (c : MemoryCache α) (now : Nat) (key : String) :
    Option α × MemoryCache α :=
  match mapGet c key with
  | none => (none, c)
  | some item =>
      if item.ttl < now - item.timestamp then (none, mapDelete c key)
      else (some item.data, c)

/-! ## RateLimiter, from src unnamed part 006 lines 16 to 65.
Timestamps are JS epoch milliseconds, modelled as integers so that the
subtraction now minus interval never truncates. -/

structure RateLimitResult where
  limit : Nat
  remaining : Nat
  reset : Int
  success : Bool
deriving Repr, DecidableEq

/-- RateLimiter.check, part 006 lines 31 to 60: trims the stored
timestamps to those strictly after now minus interval, counts them
against tokensPerInterval, and on success appends now and persists the
trimmed list; on failure the stored list is left as it was (the set
call is skipped). The reported remaining subtracts the slot just
consumed, and reset is the ceiling of the oldest kept timestamp plus
the interval, in seconds. The JS expression head or now is falsy on a
zero timestamp, which the model reproduces. -/
def RateLimiter.check (tokensPerInterval : Nat) (interval : Int)
    (requests : List Int) (now : Int) : RateLimitResult × List Int :=
  let windowStart := now - interval
  let validRequests := requests.filter (fun ts => decide (windowStart < ts))
  let remaining := tokensPerInterval - validRequests.length
  let success := decide (0 < remaining)
  let pushed := if success then validRequests ++ [now] else validRequests
  let newState := if success then pushed else requests
  let oldestRequest : Int :=
    match pushed with
    | [] => now
    | t :: _ => if t = 0 then now else t
  let reset := (oldestRequest + interval + 999) / 1000
  (⟨tokensPerInterval, remaining - (if success then 1 else 0), reset, success⟩, newState)

/-- Runs check over a list of call times in order, threading the stored
timestamp list and collecting the results. -/
def RateLimiter.run (tokensPerInterval : Nat) (interval : Int) :
    List Int → List Int → List RateLimitResult × List Int
  | state, [] => ([], state)
  | state, t :: rest =>
      let step := RateLimiter.check tokensPerInterval interval state t
      let tail := RateLimiter.run tokensPerInterval interval step.2 rest
      (step.1 :: tail.1, tail.2)

/-! ## Debrid data model, from src/lib/debrid/types.ts. -/

/-- ErrorCodes enum, types.ts lines 126 to 160. -/
inductive ErrorCode where
  | INVALID_API_KEY
  | EXPIRED_API_KEY
  | INSUFFICIENT_PERMISSIONS
  | RATE_LIMITED
  | QUOTA_EXCEEDED
  | MAGNET_NOT_FOUND
  | TORRENT_NOT_READY
  | TORRENT_NOT_FOUND
  | FILE_NOT_AVAILABLE
  | SERVICE_UNAVAILABLE
  | NETWORK_ERROR
  | TIMEOUT
  | COPYRIGHT_VIOLATION
  | VIRUS_DETECTED
  | CONTENT_BLOCKED
  | INSUFFICIENT_CREDITS
  | ACCOUNT_SUSPENDED
  | PREMIUM_REQUIRED
  | UNKNOWN_ERROR
  | VALIDATION_ERROR
deriving Repr, DecidableEq

/-- TorrentStatus union, types.ts lines 68 to 77. The poller switch also
names a completed case, but no value of this type carries it, so that
arm is unreachable. -/
inductive TorrentStatus where
  | waiting_files_selection
  | queued
  | downloading
  | downloaded
  | error
  | virus
  | compressing
  | uploading
  | dead
deriving Repr, DecidableEq

/-- String form of a status, as interpolated into error messages. -/
def TorrentStatus.text : TorrentStatus → String
  | .waiting_files_selection => "waiting_files_selection"
  | .queued => "queued"
  | .downloading => "downloading"
  | .downloaded => "downloaded"
  | .error => "error"
  | .virus => "virus"
  | .compressing => "compressing"
  | .uploading => "uploading"
  | .dead => "dead"

structure TorrentFile where
  id : String
  path : String
  size : Nat
  sizeFormatted : String
  selected : Bool
deriving Repr, DecidableEq

/-- TorrentInfo, types.ts lines 50 to 66. Numeric fields are modelled as
naturals; date strings stay strings. The optional links field is a list,
with the empty list standing for an absent value, which the consumers
treat identically. -/
structure TorrentInfo where
  id : String
  hash : String
  filename : String
  status : TorrentStatus
  progress : Nat
  speed : Nat
  speedFormatted : String
  eta : Nat
  etaFormatted : String
  size : Nat
  sizeFormatted : String
  files : List TorrentFile
  addedDate : String
  completedDate : Option String
  links : List String
deriving Repr, DecidableEq

structure SubtitleTrack where
  language : String
  languageCode : String
  url : String
  format : String
deriving Repr, DecidableEq

/-- StreamLink, types.ts lines 79 to 89. The expires field is an ISO
date string in the source; the model keeps the epoch millisecond value
that string denotes, which is what the consumers compute from it. -/
structure StreamLink where
  url : String
  quality : String
  size : Nat
  sizeFormatted : String
  filename : String
  mimeType : String
  expires : Nat
  headers : List (String × String)
  subtitles : Option (List SubtitleTrack)
deriving Repr, DecidableEq

structure DebridError where
  code : ErrorCode
  message : String
deriving Repr, DecidableEq

/-- Thrown JS values on the modelled paths are plain Error objects; only
their message is observable downstream. -/
abbrev JsError := String

/-! ## extractHashFromMagnet, src/lib/debrid/index.ts lines 355 to 358.
The JS regex literal xt equals urn colon btih colon followed by the
alternation of 40 or 32 hex characters is executed by scanning for the
first position where the pattern matches, trying the 40 branch before
the 32 branch, exactly as the backtracking engine does. -/

def isHexChar (c : Char) : Bool :=
  (('0' ≤ c) && (c ≤ '9')) || (('a' ≤ c) && (c ≤ 'f')) || (('A' ≤ c) && (c ≤ 'F'))

/-- The literal part of the regex. -/
def btihPat : List Char := "xt=urn:btih:".toList

/-- Attempts the regex at one position: the literal must match, then 40
hex characters are tried first, else 32. -/
def matchBtihAt (l : List Char) : Option (List Char) :=
  if l.take 12 = btihPat then
    let rest := l.drop 12
    if (rest.take 40).length = 40 && (rest.take 40).all isHexChar then
      some (rest.take 40)
    else if (rest.take 32).length = 32 && (rest.take 32).all isHexChar then
      some (rest.take 32)
    else none
  else none

/-- Scans left to right for the first matching position. -/
def scanBtih : List Char → Option (List Char)
  | [] => none
  | c :: rest =>
      match matchBtihAt (c :: rest) with
      | some h => some h
      | none => scanBtih rest

/-- extractHashFromMagnet: the captured group lowercased, or null when
the regex does not match anywhere. -/
def extractHashFromMagnet (s : String) : Option String :=
  (scanBtih s.toList).map (fun h => String.mk (h.map Char.toLower))

/-- Modelled from the spec wording: the btih hash parameter of a magnet
string, read as the whole run of hexadecimal characters following the
first occurrence of the literal xt equals urn colon btih colon. Used to
state what the claim asserts about parameter lengths, for comparison
with the code level extractHashFromMagnet. -/
def btihParamRun : List Char → Option (List Char)
  | [] => none
  | c :: rest =>
      if (c :: rest).take 12 = btihPat then
        some (((c :: rest).drop 12).takeWhile isHexChar)
      else btihParamRun rest

/-! ## RealDebridProvider.getStreamLink, real-debrid.ts lines 297 to 337,
and the manager level normalization, index.ts lines 217 to 228 and
317 to 335. Network responses are oracle arguments. -/

/-- Substring containment over character lists, modelling
String.prototype.includes. -/
def listContainsSub (hay pat : List Char) : Bool :=
  match hay with
  | [] => pat.isEmpty
  | _ :: t => pat.isPrefixOf hay || listContainsSub t pat

def qualityList : List String := ["2160p", "4K", "1080p", "720p", "480p", "360p"]

/-- extractQuality, real-debrid.ts lines 339 to 347. -/
def extractQuality (filename : String) : String :=
  match qualityList.find? (fun q =>
      listContainsSub filename.toLower.toList q.toLower.toList) with
  | some q => if q = "2160p" then "4K" else q
  | none => "Unknown"

/-- formatBytes, real-debrid.ts lines 182 to 187. The source formats a
float with toFixed; the model uses the integer base 1024 logarithm and
truncated tenths, which agrees except for float rounding at the last
decimal. No claim depends on this field. -/
def formatBytes (bytes : Nat) : String :=
  if bytes = 0 then "0 B"
  else
    let sizes := ["B", "KB", "MB", "GB", "TB"]
    let i := Nat.log 1024 bytes
    let tenths := bytes * 10 / 1024 ^ i
    toString (tenths / 10) ++ "." ++ toString (tenths % 10) ++ " " ++ sizes.getD i ""

/-- The unrestrict link response body used by getStreamLink. -/
structure Unrestricted where
  download : String
  filename : String
  mimeType : Option String
  filesize : Nat
deriving Repr, DecidableEq

/-- RealDebridProvider.getStreamLink. The info argument is the outcome
of the inner getTorrentInfo call (either the TorrentInfo produced or the
message of the Error it threw); unres is the unrestrict response; now is
Date.now at link creation. A link looked up past the end of the array is
undefined, and an empty string link is equally falsy, so both produce
the out of range error; the expires field is now plus 4 hours. -/
def RealDebrid.getStreamLink (info : Except JsError TorrentInfo) (fileIndex : Nat)
    (unres : Except DebridError Unrestricted) (now : Nat) : Except JsError StreamLink :=
  match info with
  | .error msg => .error msg
  | .ok ti =>
      if ti.status ≠ TorrentStatus.downloaded then
        .error "Torrent not ready for streaming"
      else if ti.links.length = 0 then
        .error "No download links available"
      else
        let linkUrl := ti.links.getD fileIndex ""
        if linkUrl = "" then .error "File index out of range"
        else
          match unres with
          | .error e =>
              .error (if e.message = "" then "Failed to get stream link" else e.message)
          | .ok u =>
              .ok { url := u.download
                    quality := extractQuality u.filename
                    size := u.filesize
                    sizeFormatted := formatBytes u.filesize
                    filename := u.filename
                    mimeType := u.mimeType.getD "application/octet-stream"
                    expires := now + 4 * 60 * 60 * 1000
                    headers := [("User-Agent", "Heimdall/1.0.0")]
                    subtitles := none }

/-- DebridManager.handleError, index.ts lines 317 to 335, restricted to
thrown Error objects, the only values thrown on the modelled paths: the
result is the UNKNOWN error code carrying the message. -/
def DebridManager.handleError (msg : JsError) : DebridError :=
  ⟨ErrorCode.UNKNOWN_ERROR, msg⟩

/-- DebridManager.getStreamLink, index.ts lines 217 to 228, with the
real-debrid provider resolved: delegates and normalizes any thrown
error through handleError. -/
def DebridManager.getStreamLinkRD (info : Except JsError TorrentInfo) (fileIndex : Nat)
    (unres : Except DebridError Unrestricted) (now : Nat) : Except DebridError StreamLink :=
  match RealDebrid.getStreamLink info fileIndex unres now with
  | .ok s => .ok s
  | .error msg => .error (DebridManager.handleError msg)

/-! ## DebridManager.search, index.ts lines 120 to 147, multi provider
branch. Each registered provider is carried together with the outcome
of its search call, which is the oracle for the awaited network
request. -/

abbrev ProviderName := String

/-- SearchResult, types.ts lines 24 to 40. -/
structure SearchResult where
  id : String
  title : String
  hash : String
  magnetLink : String
  size : Nat
  sizeFormatted : String
  seeders : Nat
  leechers : Nat
  category : String
  quality : Option String
  resolution : Option String
  uploadDate : String
  provider : String
  files : Option (List TorrentFile)
  isInstantAvailable : Bool
deriving Repr, DecidableEq

/-- The fan out branch of DebridManager.search: every provider is
queried, a succeeding provider contributes its results tagged with the
provider name, a failing one contributes the empty list after its error
is logged, and the flattened concatenation is returned. Promise.all
never rejects here because each inner promise catches its own error, so
the outer catch is dead and the call resolves. -/
def DebridManager.searchAll
    (providers : List (ProviderName × Except JsError (List SearchResult))) :
    Except DebridError (List SearchResult) :=
  .ok ((providers.map (fun p =>
      match p.2 with
      | .ok results => results.map (fun r => { r with provider := p.1 })
      | .error _ => [])).flatten)

/-- Modelled from the spec wording: the concatenation of the succeeding
providers results, each tagged with its source provider, with failing
providers skipped. Stated separately so the code level searchAll can be
proved to refine it. -/
def searchSpec
    (providers : List (ProviderName × Except JsError (List SearchResult))) :
    List SearchResult :=
  (providers.filterMap (fun p =>
      match p.2 with
      | .ok results => some (results.map (fun r => { r with provider := p.1 }))
      | .error _ => none)).flatten

/-! ## TorrentPoller, src unnamed part 006 lines 91 to 327. The job map,
the ticker flag and the stream cache are explicit state; onComplete and
onError closures are modelled as emitted events tagged with the job id;
the manager calls inside a tick are oracle arguments. Per section 5 of
the design the job map bookkeeping is serialized, so a tick processes
its snapshot sequentially. -/

/-- PollingJob, part 006 lines 91 to 100, without the two callback
fields, which the event trace replaces. -/
structure PollingJob where
  id : String
  torrentId : String
  provider : String
  userId : String
  startTime : Nat
  retryCount : Nat
deriving Repr, DecidableEq

/-- One callback invocation: onComplete with the stream url, or onError
with the message. -/
inductive JobEvent where
  | complete (url : String)
  | error (msg : String)
deriving Repr, DecidableEq

abbrev JobTrace := List (String × JobEvent)

structure PollerState where
  jobs : List (String × PollingJob)
  tickerActive : Bool
deriving Repr, DecidableEq

/-- pollInterval is 5000 ms; maxRetries 60; maxJobs 100; the timeout
budget in processJob is 5 minutes; cleanup treats jobs older than 10
minutes as stale and removes at most 10 of them. -/
def maxRetries : Nat := 60

def maxJobs : Nat := 100

def maxJobLifetime : Nat := 5 * 60 * 1000

def staleAge : Nat := 10 * 60 * 1000

/-- startPolling, part 006 lines 113 to 119: a no op when the interval
is already running. -/
def PollerState.startPolling (s : PollerState) : PollerState :=
  { s with tickerActive := true }

/-- stopPolling, part 006 lines 121 to 126. -/
def PollerState.stopPolling (s : PollerState) : PollerState :=
  { s with tickerActive := false }

/-- removeJob, part 006 lines 146 to 156: deletes the entry and stops
the ticker when the map became empty. -/
def PollerState.removeJob (s : PollerState) (jobId : String) : PollerState :=
  if (mapDelete s.jobs jobId).length = 0 then
    PollerState.stopPolling { s with jobs := mapDelete s.jobs jobId }
  else { s with jobs := mapDelete s.jobs jobId }

/-- Stable insertion into a list ascending by startTime: the new entry
goes after every entry not later than it. -/
def insertByStart (kv : String × PollingJob) :
    List (String × PollingJob) → List (String × PollingJob)
  | [] => [kv]
  | kv' :: rest =>
      if kv'.2.startTime ≤ kv.2.startTime then kv' :: insertByStart kv rest
      else kv :: kv' :: rest

/-- Stable sort ascending by startTime, modelling the comparator sort
a.startTime minus b.startTime of the source. -/
def sortByStartTime : List (String × PollingJob) → List (String × PollingJob)
  | [] => []
  | kv :: rest => insertByStart kv (sortByStartTime rest)

/-- cleanupOldJobs, part 006 lines 252 to 264: the jobs older than 10
minutes, sorted oldest first, capped at 10, each signalled with the
cleanup timeout error and removed. The loop interleaves each signal
with its removal; the pair of final state and emitted list is the same
either way. -/
def PollerState.cleanupOldJobs (s : PollerState) (now : Nat) :
    PollerState × JobTrace :=
  let old := (sortByStartTime (s.jobs.filter
      (fun kv => staleAge < now - kv.2.startTime))).take 10
  (old.foldl (fun st kv => st.removeJob kv.1) s,
   old.map (fun kv => (kv.1, JobEvent.error "Job cleanup timeout")))

/-- addJob, part 006 lines 128 to 144: when the map is at or above
capacity, cleanupOldJobs runs first; then the job is stored under its id
with startTime now and retryCount 0. The ticker is not touched. -/
def PollerState.addJob (s : PollerState) (j : PollingJob) (now : Nat) :
    PollerState × JobTrace :=
  if maxJobs ≤ s.jobs.length then
    ({ (s.cleanupOldJobs now).1 with
        jobs := mapSet (s.cleanupOldJobs now).1.jobs j.id
          { j with startTime := now, retryCount := 0 } },
     (s.cleanupOldJobs now).2)
  else
    ({ s with jobs := mapSet s.jobs j.id { j with startTime := now, retryCount := 0 } },
     [])

/-- shutdown, part 006 lines 304 to 314: stop the ticker, signal every
pending job with the shutting down error, clear the map. -/
def PollerState.shutdown (s : PollerState) : PollerState × JobTrace :=
  (⟨[], false⟩, s.jobs.map (fun kv => (kv.1, JobEvent.error "Server shutting down")))

/-- processJob, part 006 lines 163 to 250, for one job of the tick
snapshot. The retry counter increment mutates the object held by the
map, modelled by mapUpdate. infoResp is the outcome of the
getTorrentInfo call; streamResp the outcome of the getStreamLink call
on the success terminal branch. A thrown getTorrentInfo lands in the
outer catch, which fails the job only when retries are exhausted. On
the downloaded branch the stream link is cached under the stream key
with ttl the clamped distance to its expiry, onComplete fires with the
url and the job is removed; the completed case of the switch cannot
arise because TorrentStatus has no such value. The file selection
branch only performs logged best effort provider calls, with no effect
on the modelled state. -/
def PollerState.processJob (s : PollerState) (cache : MemoryCache StreamLink)
    (now : Nat) (j : PollingJob) (infoResp : Except DebridError TorrentInfo)
    (streamResp : Except DebridError StreamLink) :
    PollerState × MemoryCache StreamLink × JobTrace :=
  let j1 : PollingJob := { j with retryCount := j.retryCount + 1 }
  let s1 : PollerState := { s with jobs := mapUpdate s.jobs j.id j1 }
  let elapsed := now - j.startTime
  if maxRetries < j1.retryCount ∨ maxJobLifetime < elapsed then
    (s1.removeJob j.id, cache, [(j.id, JobEvent.error "Torrent processing timeout")])
  else
    match infoResp with
    | .error _ =>
        if maxRetries ≤ j1.retryCount then
          (s1.removeJob j.id, cache, [(j.id, JobEvent.error "Failed to check torrent status")])
        else (s1, cache, [])
    | .ok ti =>
        match ti.status with
        | .downloaded =>
            match streamResp with
            | .ok sl =>
                let cacheKey := "stream:" ++ j.provider ++ ":" ++ j.torrentId ++ ":0"
                let expiresIn := sl.expires - now
                (s1.removeJob j.id,
                 MemoryCache.set cache now cacheKey sl (some expiresIn),
                 [(j.id, JobEvent.complete sl.url)])
            | .error _ =>
                (s1.removeJob j.id, cache,
                 [(j.id, JobEvent.error "Failed to generate stream link")])
        | .error =>
            (s1.removeJob j.id, cache, [(j.id, JobEvent.error ("Torrent " ++ ti.status.text))])
        | .virus =>
            (s1.removeJob j.id, cache, [(j.id, JobEvent.error ("Torrent " ++ ti.status.text))])
        | .dead =>
            (s1.removeJob j.id, cache, [(j.id, JobEvent.error ("Torrent " ++ ti.status.text))])
        | _ => (s1, cache, [])

/-- processJobs, part 006 lines 158 to 161: every job of the snapshot is
processed and the tick settles when all are done. The oracles give each
job its poll responses, keyed by torrent id as the manager calls are. -/
def PollerState.tick (s : PollerState) (cache : MemoryCache StreamLink) (now : Nat)
    (info : String → Except DebridError TorrentInfo)
    (stream : String → Except DebridError StreamLink) :
    PollerState × MemoryCache StreamLink × JobTrace :=
  (s.jobs.map Prod.snd).foldl
    (fun acc j =>
      let r := acc.1.processJob acc.2.1 now j (info j.torrentId) (stream j.torrentId)
      (r.1, r.2.1, acc.2.2 ++ r.2.2))
    (s, cache, [])

/-- The external operations on the poller. -/
inductive PollerOp where
  | add (j : PollingJob) (now : Nat)
  | remove (jobId : String)
  | tick (now : Nat) (info : String → Except DebridError TorrentInfo)
      (stream : String → Except DebridError StreamLink)
  | shutdown

/-- Runs a sequence of operations from a state and cache, collecting the
full event trace in order. -/
def PollerState.runOps :
    PollerState × MemoryCache StreamLink → List PollerOp →
    (PollerState × MemoryCache StreamLink) × JobTrace
  | sc, [] => (sc, [])
  | (s, c), op :: rest =>
      let step : PollerState × MemoryCache StreamLink × JobTrace :=
        match op with
        | .add j now => let r := s.addJob j now; (r.1, c, r.2)
        | .remove jobId => (s.removeJob jobId, c, [])
        | .tick now info stream => s.tick c now info stream
        | .shutdown => let r := s.shutdown; (r.1, c, r.2)
      let tail := PollerState.runOps (step.1, step.2.1) rest
      (tail.1, step.2.2 ++ tail.2)

/-- The poller state right after construction, part 006 lines 109 to
111: empty job map, ticker started. -/
def initialPoller : PollerState := ⟨[], true⟩

/-- Number of events of a trace belonging to one job id. -/
def eventsFor (jobId : String) (tr : JobTrace) : Nat :=
  (tr.filter (fun e => e.1 = jobId)).length

/-- Number of add operations for one job id in an operation sequence. -/
def addCount (jobId : String) : List PollerOp → Nat
  | [] => 0
  | op :: rest =>
      (match op with
       | .add j _ => if j.id = jobId then 1 else 0
       | _ => 0) + addCount jobId rest

/-! ## Basic facts about the keyed store operations. -/

theorem mapGet_mapSet_self {α : Type} (l : List (String × α)) (k : String) (v : α) :
    mapGet (mapSet l k v) k = some v := by
  induction l with
  | nil => simp [mapSet, mapGet]
  | cons kv rest ih =>
      obtain ⟨k', v'⟩ := kv
      by_cases h : k' = k
      · simp [mapSet, h, mapGet]
      · simp [mapSet, h, mapGet, ih]

theorem mapGet_mapSet_ne {α : Type} (l : List (String × α)) (k k' : String) (v : α)
    (h : k' ≠ k) : mapGet (mapSet l k v) k' = mapGet l k' := by
  have hkk : ¬ (k = k') := fun e => h e.symm
  induction l with
  | nil => simp [mapSet, mapGet, hkk]
  | cons kv rest ih =>
      obtain ⟨k₀, v₀⟩ := kv
      by_cases hk : k₀ = k
      · subst hk
        simp [mapSet, mapGet, hkk]
      · simp [mapSet, hk, mapGet, ih]

theorem mapGet_mapDelete_self {α : Type} (l : List (String × α)) (k : String) :
    mapGet (mapDelete l k) k = none := by
  induction l with
  | nil => simp [mapDelete, mapGet]
  | cons kv rest ih =>
      obtain ⟨k₀, v₀⟩ := kv
      by_cases hk : k₀ = k
      · simpa [mapDelete, hk] using ih
      · simpa [mapDelete, mapGet, hk] using ih

theorem mapGet_mapDelete_ne {α : Type} (l : List (String × α)) (k k' : String)
    (h : k' ≠ k) : mapGet (mapDelete l k) k' = mapGet l k' := by
  induction l with
  | nil => simp [mapDelete]
  | cons kv rest ih =>
      obtain ⟨k₀, v₀⟩ := kv
      by_cases hk : k₀ = k
      · subst hk
        have hne : ¬ (k₀ = k') := fun e => h e.symm
        simpa [mapDelete, mapGet, hne] using ih
      · by_cases hk' : k₀ = k'
        · subst hk'
          simp [mapDelete, mapGet, hk]
        · simpa [mapDelete, mapGet, hk, hk'] using ih

theorem mapGet_mapUpdate_ne {α : Type} (l : List (String × α)) (k k' : String) (v : α)
    (h : k' ≠ k) : mapGet (mapUpdate l k v) k' = mapGet l k' := by
  induction l with
  | nil => simp [mapUpdate]
  | cons kv rest ih =>
      obtain ⟨k₀, v₀⟩ := kv
      by_cases hk : k₀ = k
      · subst hk
        have hne : ¬ (k₀ = k') := fun e => h e.symm
        simpa [mapUpdate, mapGet, hne, fun e : k₀ = k' => h e.symm] using ih
      · by_cases hk' : k₀ = k'
        · subst hk'
          simp [mapUpdate, mapGet, hk]
        · simpa [mapUpdate, mapGet, hk, hk'] using ih

theorem mapGet_mapUpdate_isSome {α : Type} (l : List (String × α)) (k : String) (v : α) :
    (mapGet (mapUpdate l k v) k).isSome = (mapGet l k).isSome := by
  induction l with
  | nil => simp [mapUpdate]
  | cons kv rest ih =>
      obtain ⟨k₀, v₀⟩ := kv
      by_cases hk : k₀ = k
      · subst hk
        simp [mapUpdate, mapGet]
      · simpa [mapUpdate, mapGet, hk] using ih

theorem mapGet_eq_none_iff {α : Type} (l : List (String × α)) (k : String) :
    mapGet l k = none ↔ k ∉ l.map Prod.fst := by
  induction l with
  | nil => simp [mapGet]
  | cons kv rest ih =>
      obtain ⟨k₀, v₀⟩ := kv
      by_cases hk : k₀ = k
      · simp [mapGet, hk]
      · have hk' : ¬ (k = k₀) := fun e => hk e.symm
        simp [mapGet, hk, ih, List.mem_cons, hk']

theorem length_mapSet_le {α : Type} (l : List (String × α)) (k : String) (v : α) :
    (mapSet l k v).length ≤ l.length + 1 := by
  induction l with
  | nil => simp [mapSet]
  | cons kv rest ih =>
      obtain ⟨k₀, v₀⟩ := kv
      by_cases hk : k₀ = k
      · simp [mapSet, hk]
      · simpa [mapSet, hk, Nat.succ_le_succ_iff] using ih

/-! ## Claim C2: cache round trip and expiry on read. -/

/-- C2. For every key, value and ttl, a get immediately after a set
returns the value; and a get at a time t with t minus createdAt greater
than the ttl returns none and evicts the key from the store. -/
theorem cache_set_get_ttl {α : Type} (c : MemoryCache α) (now : Nat) (k : String)
    (v : α) (ttl : Option Nat) (c' : MemoryCache α) (t : Nat) (item : CacheItem α)
    (hit : mapGet c' k = some item) (hexp : item.ttl < t - item.timestamp) :
    (MemoryCache.get (MemoryCache.set c now k v ttl) now k).1 = some v ∧
    ((MemoryCache.get c' t k).1 = none ∧ mapGet (MemoryCache.get c' t k).2 k = none) := by
  refine ⟨?_, ?_, ?_⟩
  · simp [MemoryCache.get, MemoryCache.set, mapGet_mapSet_self]
  · simp [MemoryCache.get, hit, hexp]
  · simp [MemoryCache.get, hit, hexp, mapGet_mapDelete_self]

/-- Witness for C2 at a concrete store: set at time 0 with ttl 100, read
back at time 0, and expiry of an entry read at time 101. -/
theorem cache_set_get_ttl_witness :
    mapGet [("k", (⟨7, 0, 100⟩ : CacheItem Nat))] "k" = some ⟨7, 0, 100⟩ ∧
    (100 : Nat) < 101 - 0 ∧
    ((MemoryCache.get (MemoryCache.set ([] : MemoryCache Nat) 0 "k" 7 (some 100)) 0 "k").1
        = some 7 ∧
     ((MemoryCache.get [("k", (⟨7, 0, 100⟩ : CacheItem Nat))] 101 "k").1 = none ∧
      mapGet (MemoryCache.get [("k", (⟨7, 0, 100⟩ : CacheItem Nat))] 101 "k").2 "k"
        = none)) :=
  ⟨by decide, by decide,
   cache_set_get_ttl ([] : MemoryCache Nat) 0 "k" 7 (some 100)
     [("k", ⟨7, 0, 100⟩)] 101 ⟨7, 0, 100⟩ (by decide) (by decide)⟩

/-! ## Claim C10: a ttl of zero falls back to the 5 minute default. -/

/-- C10. Setting with ttl 0 stores the 5 minute default ttl, so the
entry is not immediately expired: a get up to 5 minutes later still
returns the value. -/
theorem cache_zero_ttl_defaults {α : Type} (c : MemoryCache α) (now : Nat) (k : String)
    (v : α) (t : Nat) (h : t - now ≤ defaultTtl) :
    mapGet (MemoryCache.set c now k v (some 0)) k = some ⟨v, now, defaultTtl⟩ ∧
    (MemoryCache.get (MemoryCache.set c now k v (some 0)) t k).1 = some v := by
  have hset : mapGet (MemoryCache.set c now k v (some 0)) k = some ⟨v, now, defaultTtl⟩ := by
    simp [MemoryCache.set, mapGet_mapSet_self]
  refine ⟨hset, ?_⟩
  simp [MemoryCache.get, hset, Nat.not_lt.mpr h]

/-- Witness for C10: ttl 0 at time 0, read back at 300000 ms. -/
theorem cache_zero_ttl_defaults_witness :
    (300000 - 0 : Nat) ≤ defaultTtl ∧
    (mapGet (MemoryCache.set ([] : MemoryCache Nat) 0 "k" 5 (some 0)) "k"
        = some ⟨5, 0, defaultTtl⟩ ∧
     (MemoryCache.get (MemoryCache.set ([] : MemoryCache Nat) 0 "k" 5 (some 0)) 300000 "k").1
        = some 5) :=
  ⟨by decide, cache_zero_ttl_defaults ([] : MemoryCache Nat) 0 "k" 5 300000 (by decide)⟩

/-! ## Claim C1: the ticker is not restarted by addJob. -/

/-- C1. The claimed invariant, a non empty job set implies an active
ticker, is broken by the code: removeJob stops the ticker when the map
empties, and addJob never calls startPolling, so the job added next is
never polled. The run below reaches a state with a non empty job set
and an inactive ticker. -/
theorem ticker_not_restarted_on_add :
    ((((initialPoller.addJob ⟨"j1", "t1", "real-debrid", "u1", 0, 0⟩ 0).1.removeJob
        "j1").addJob ⟨"j2", "t2", "real-debrid", "u1", 0, 0⟩ 5000).1.jobs ≠ [] ∧
     (((initialPoller.addJob ⟨"j1", "t1", "real-debrid", "u1", 0, 0⟩ 0).1.removeJob
        "j1").addJob ⟨"j2", "t2", "real-debrid", "u1", 0, 0⟩ 5000).1.tickerActive
       = false) := by
  decide

/-! ## Facts about removeJob, cleanupOldJobs and addJob sizes. -/

theorem removeJob_jobs (s : PollerState) (k : String) :
    (s.removeJob k).jobs = mapDelete s.jobs k := by
  unfold PollerState.removeJob PollerState.stopPolling
  split <;> rfl

theorem removeJob_tickerActive_of_ne_nil (s : PollerState) (k : String)
    (h : (mapDelete s.jobs k).length ≠ 0) :
    (s.removeJob k).tickerActive = s.tickerActive := by
  unfold PollerState.removeJob PollerState.stopPolling
  rw [if_neg h]

theorem foldRemove_length (old : List (String × PollingJob)) (s : PollerState) :
    (old.foldl (fun st kv => st.removeJob kv.1) s).jobs.length ≤ s.jobs.length := by
  induction old generalizing s with
  | nil => simp
  | cons kv rest ih =>
      refine le_trans (ih (s.removeJob kv.1)) ?_
      rw [removeJob_jobs]
      exact List.length_filter_le _ _

theorem cleanup_length_le (s : PollerState) (now : Nat) :
    (s.cleanupOldJobs now).1.jobs.length ≤ s.jobs.length :=
  foldRemove_length _ s

theorem cleanup_events_length (s : PollerState) (now : Nat) :
    (s.cleanupOldJobs now).2.length ≤ 10 := by
  unfold PollerState.cleanupOldJobs
  simp only [List.length_map]
  exact List.length_take_le _ _

theorem mem_insertByStart (kv x : String × PollingJob) (l : List (String × PollingJob)) :
    x ∈ insertByStart kv l ↔ x = kv ∨ x ∈ l := by
  induction l with
  | nil => simp [insertByStart]
  | cons kv' rest ih =>
      by_cases h : kv'.2.startTime ≤ kv.2.startTime
      · simp only [insertByStart, h, if_pos, List.mem_cons, ih]
        tauto
      · simp only [insertByStart, h, if_neg, not_false_iff, List.mem_cons]

theorem mem_sortByStartTime (x : String × PollingJob) (l : List (String × PollingJob)) :
    x ∈ sortByStartTime l ↔ x ∈ l := by
  induction l with
  | nil => simp [sortByStartTime]
  | cons kv rest ih =>
      simp [sortByStartTime, mem_insertByStart, ih]

theorem cleanup_events_mem (s : PollerState) (now : Nat) :
    ∀ e ∈ (s.cleanupOldJobs now).2, e.2 = JobEvent.error "Job cleanup timeout" ∧
      ∃ kv ∈ s.jobs, kv.1 = e.1 ∧ staleAge < now - kv.2.startTime := by
  intro e he
  unfold PollerState.cleanupOldJobs at he
  simp only [List.mem_map] at he
  obtain ⟨kv, hkv, rfl⟩ := he
  have h1 : kv ∈ sortByStartTime (s.jobs.filter
      (fun kv => staleAge < now - kv.2.startTime)) := List.take_subset _ _ hkv
  have h2 : kv ∈ s.jobs.filter (fun kv => staleAge < now - kv.2.startTime) :=
    (mem_sortByStartTime _ _).mp h1
  have h3 := List.mem_filter.mp h2
  exact ⟨rfl, kv, h3.1, rfl, by simpa using h3.2⟩

/-! ## Claim C9: the capacity cap is not actually enforced. -/

/-- A state with 100 fresh jobs, reached by 100 addJob calls at time 0. -/
def c9State : PollerState :=
  (List.range 100).foldl
    (fun st i => (st.addJob ⟨toString i, "t", "real-debrid", "u", 0, 0⟩ 0).1)
    initialPoller

set_option maxRecDepth 40000 in
/-- C9 counterexample: with the job set at the cap of 100 and every job
fresh, cleanupOldJobs evicts nothing, so the very next addJob pushes the
size to 101, above maxJobs. -/
theorem addJob_exceeds_cap_cex :
    c9State.jobs.length = 100 ∧ maxJobs = 100 ∧
    ((c9State.addJob ⟨"extra", "t", "real-debrid", "u", 0, 0⟩ 0).1.jobs.length = 101) := by
  decide

/-- C9 amended: addJob grows the job set by at most one entry, and the
eviction pass it triggers at capacity removes at most 10 jobs, each of
which was in the set, strictly older than 10 minutes, and signalled the
cleanup timeout error; no hard cap is enforced when no job is stale. -/
theorem addJob_capacity_amended (s : PollerState) (j : PollingJob) (now : Nat) :
    (s.addJob j now).1.jobs.length ≤ s.jobs.length + 1 ∧
    (s.addJob j now).2.length ≤ 10 ∧
    ∀ e ∈ (s.addJob j now).2, e.2 = JobEvent.error "Job cleanup timeout" ∧
      ∃ kv ∈ s.jobs, kv.1 = e.1 ∧ staleAge < now - kv.2.startTime := by
  unfold PollerState.addJob
  by_cases hcap : maxJobs ≤ s.jobs.length
  · simp only [hcap, if_pos]
    refine ⟨?_, cleanup_events_length s now, cleanup_events_mem s now⟩
    refine le_trans (length_mapSet_le _ _ _) ?_
    exact Nat.succ_le_succ (cleanup_length_le s now)
  · simp only [hcap, if_neg, not_false_iff]
    refine ⟨le_trans (length_mapSet_le _ _ _) (le_refl _), by simp, by simp⟩

deriving instance DecidableEq for Except

/-! ## Claim C5: getStreamLink failures carry the UNKNOWN code. -/

/-- A torrent still queued, with one link available. -/
def tiQueued : TorrentInfo :=
  { id := "t1", hash := "h", filename := "f.mkv", status := TorrentStatus.queued
    progress := 0, speed := 0, speedFormatted := "0 B/s", eta := 0, etaFormatted := "Unknown"
    size := 0, sizeFormatted := "0 B", files := [], addedDate := "", completedDate := none
    links := ["l1"] }

/-- The same torrent once downloaded. -/
def tiDone : TorrentInfo := { tiQueued with status := TorrentStatus.downloaded }

def unresOk : Unrestricted := ⟨"https://dl.example/x", "f.mkv", some "video/x-matroska", 0⟩

/-- C5 counterexample: a queued torrent fails with a normalized error
whose code is UNKNOWN carrying the not ready message, not the
TORRENT_NOT_READY code the claim names; an out of range file index on a
downloaded torrent likewise yields UNKNOWN, not FILE_NOT_AVAILABLE. -/
theorem getStreamLink_unknown_code_cex :
    DebridManager.getStreamLinkRD (.ok tiQueued) 0 (.ok unresOk) 0
      = .error ⟨ErrorCode.UNKNOWN_ERROR, "Torrent not ready for streaming"⟩ ∧
    ErrorCode.UNKNOWN_ERROR ≠ ErrorCode.TORRENT_NOT_READY ∧
    DebridManager.getStreamLinkRD (.ok tiDone) 5 (.ok unresOk) 0
      = .error ⟨ErrorCode.UNKNOWN_ERROR, "File index out of range"⟩ ∧
    ErrorCode.UNKNOWN_ERROR ≠ ErrorCode.FILE_NOT_AVAILABLE := by
  decide

/-- C5 amended: a non ready torrent fails through the normalized error
path, but the error it carries is the UNKNOWN code with the message
Torrent not ready for streaming, because the provider throws a plain
Error which handleError cannot classify; an out of range file index
likewise yields the UNKNOWN code with the message File index out of
range. -/
theorem getStreamLink_error_amended (ti tj : TorrentInfo) (fi fj : Nat)
    (u v : Except DebridError Unrestricted) (now : Nat)
    (hnr : ti.status ≠ TorrentStatus.downloaded)
    (hdl : tj.status = TorrentStatus.downloaded)
    (hne : tj.links ≠ [])
    (hoob : tj.links.length ≤ fj) :
    DebridManager.getStreamLinkRD (.ok ti) fi u now
      = .error ⟨ErrorCode.UNKNOWN_ERROR, "Torrent not ready for streaming"⟩ ∧
    DebridManager.getStreamLinkRD (.ok tj) fj v now
      = .error ⟨ErrorCode.UNKNOWN_ERROR, "File index out of range"⟩ := by
  constructor
  · simp [DebridManager.getStreamLinkRD, RealDebrid.getStreamLink, hnr,
      DebridManager.handleError]
  · have h0 : tj.links.length ≠ 0 := fun h => hne (List.length_eq_zero.mp h)
    have hget : tj.links[fj]? = none := List.getElem?_eq_none hoob
    simp [DebridManager.getStreamLinkRD, RealDebrid.getStreamLink, hdl, h0, hget,
      DebridManager.handleError, List.getD]

/-- Witness for C5 amended at the concrete queued and downloaded
torrents of the counterexample. -/
theorem getStreamLink_error_amended_witness :
    (tiQueued.status ≠ TorrentStatus.downloaded ∧
     tiDone.status = TorrentStatus.downloaded ∧
     tiDone.links ≠ [] ∧ tiDone.links.length ≤ 5) ∧
    (DebridManager.getStreamLinkRD (.ok tiQueued) 0 (.ok unresOk) 0
       = .error ⟨ErrorCode.UNKNOWN_ERROR, "Torrent not ready for streaming"⟩ ∧
     DebridManager.getStreamLinkRD (.ok tiDone) 5 (.ok unresOk) 0
       = .error ⟨ErrorCode.UNKNOWN_ERROR, "File index out of range"⟩) :=
  ⟨⟨by decide, by decide, by decide, by decide⟩,
   getStreamLink_error_amended tiQueued tiDone 0 5 (.ok unresOk) (.ok unresOk) 0
     (by decide) (by decide) (by decide) (by decide)⟩

/-! ## Claim C6: multi provider search tolerates partial failure. -/

theorem searchAll_flatten_eq (providers : List (ProviderName × Except JsError (List SearchResult))) :
    (providers.map (fun p =>
        match p.2 with
        | .ok results => results.map (fun r => { r with provider := p.1 })
        | .error _ => ([] : List SearchResult))).flatten = searchSpec providers := by
  induction providers with
  | nil => rfl
  | cons p rest ih =>
      obtain ⟨name, res⟩ := p
      cases res with
      | ok rs => simpa [searchSpec, List.filterMap_cons] using ih
      | error e => simpa [searchSpec, List.filterMap_cons] using ih

/-- C6. With at least one failing and at least one succeeding provider,
the fan out search raises no error and returns exactly the concatenated
results of the succeeding providers, each tagged with its provider; a
failing provider contributes the empty list. -/
theorem search_partial_failure
    (providers : List (ProviderName × Except JsError (List SearchResult)))
    (_hfail : ∃ p ∈ providers, p.2.isOk = false)
    (_hsucc : ∃ p ∈ providers, p.2.isOk = true) :
    DebridManager.searchAll providers = Except.ok (searchSpec providers) := by
  unfold DebridManager.searchAll
  rw [searchAll_flatten_eq]

/-- A concrete search result for the witness. -/
def sampleResult : SearchResult :=
  { id := "r1", title := "dune", hash := "h", magnetLink := "magnet:?xt=urn:btih:h"
    size := 1, sizeFormatted := "1.0 B", seeders := 3, leechers := 1, category := "movies"
    quality := some "1080p", resolution := none, uploadDate := "", provider := ""
    files := none, isInstantAvailable := true }

/-- Witness for C6: one failing and one succeeding provider. -/
theorem search_partial_failure_witness :
    ((∃ p ∈ [("real-debrid", (Except.error "boom" : Except JsError (List SearchResult))),
             ("alldebrid", Except.ok [sampleResult])], p.2.isOk = false) ∧
     (∃ p ∈ [("real-debrid", (Except.error "boom" : Except JsError (List SearchResult))),
             ("alldebrid", Except.ok [sampleResult])], p.2.isOk = true)) ∧
    DebridManager.searchAll
        [("real-debrid", Except.error "boom"), ("alldebrid", Except.ok [sampleResult])]
      = Except.ok (searchSpec
        [("real-debrid", Except.error "boom"), ("alldebrid", Except.ok [sampleResult])]) :=
  ⟨⟨by decide, by decide⟩,
   search_partial_failure
     [("real-debrid", Except.error "boom"), ("alldebrid", Except.ok [sampleResult])]
     (by decide) (by decide)⟩

/-! ## Claim C3: sliding window exhaustion and trimming. -/

theorem filter_window_all (l : List Int) (w : Int) (h : ∀ x ∈ l, w < x) :
    l.filter (fun ts => decide (w < ts)) = l := by
  rw [List.filter_eq_self]
  intro a ha
  simpa using h a ha

theorem run_cons (tpi : Nat) (interval : Int) (s : List Int) (t : Int) (rest : List Int) :
    (RateLimiter.run tpi interval s (t :: rest)).2
      = (RateLimiter.run tpi interval (RateLimiter.check tpi interval s t).2 rest).2 := rfl

theorem check_success_state (tpi : Nat) (interval : Int) (s : List Int) (t : Int)
    (hwin : ∀ x ∈ s, t - interval < x) (hlen : s.length < tpi) :
    (RateLimiter.check tpi interval s t).2 = s ++ [t] := by
  have hpos : 0 < tpi - s.length := Nat.sub_pos_of_lt hlen
  simp [RateLimiter.check, filter_window_all s _ hwin, hpos]

theorem run_saturates (tpi : Nat) (interval : Int) (times : List Int) :
    ∀ s : List Int, s.length + times.length ≤ tpi →
      (∀ now ∈ times, ∀ x ∈ s, now - interval < x) →
      (∀ now ∈ times, ∀ x ∈ times, now - interval < x) →
      (RateLimiter.run tpi interval s times).2 = s ++ times := by
  induction times with
  | nil => intro s _ _ _; simp [RateLimiter.run]
  | cons t rest ih =>
      intro s hlen hs ht
      have hlen' : s.length < tpi := by
        simp only [List.length_cons] at hlen
        omega
      have hstate : (RateLimiter.check tpi interval s t).2 = s ++ [t] :=
        check_success_state tpi interval s t (hs t (List.mem_cons_self t rest)) hlen'
      rw [run_cons, hstate]
      have hres := ih (s ++ [t]) (by simp only [List.length_append, List.length_cons,
        List.length_singleton, List.length_nil] at hlen ⊢; omega)
        (by
          intro now hnow x hx
          rcases List.mem_append.mp hx with hx | hx
          · exact hs now (List.mem_cons_of_mem t hnow) x hx
          · rw [List.mem_singleton.mp hx]
            exact ht now (List.mem_cons_of_mem t hnow) t (List.mem_cons_self t rest))
        (by
          intro now hnow x hx
          exact ht now (List.mem_cons_of_mem t hnow) x (List.mem_cons_of_mem t hx))
      rw [hres, List.append_assoc, List.singleton_append]

/-- C3. Calling check limit plus one times within one interval yields
success false and remaining 0 on the last call, and the stored list is
trimmed to the window before counting: timestamps at or before now
minus interval never influence the reported result. -/
theorem rateLimiter_window_exhaustion (tpi : Nat) (interval : Int)
    (times : List Int) (tf : Int)
    (hlen : times.length = tpi)
    (hwin : ∀ now ∈ times ++ [tf], ∀ x ∈ times ++ [tf], now - interval < x)
    (reqs stale : List Int) (now2 : Int)
    (hstale : ∀ x ∈ stale, x ≤ now2 - interval) :
    ((RateLimiter.check tpi interval (RateLimiter.run tpi interval [] times).2 tf).1.success
        = false ∧
     (RateLimiter.check tpi interval (RateLimiter.run tpi interval [] times).2 tf).1.remaining
        = 0) ∧
    (RateLimiter.check tpi interval (stale ++ reqs) now2).1
      = (RateLimiter.check tpi interval reqs now2).1 := by
  have hmemL : ∀ x ∈ times, x ∈ times ++ [tf] := fun x hx =>
    List.mem_append.mpr (Or.inl hx)
  have htf : tf ∈ times ++ [tf] := List.mem_append.mpr (Or.inr (List.mem_singleton.mpr rfl))
  have hrun : (RateLimiter.run tpi interval [] times).2 = times := by
    have := run_saturates tpi interval times [] (by simp [hlen])
      (by intro now _ x hx; exact absurd hx (List.not_mem_nil x))
      (by intro now hnow x hx; exact hwin now (hmemL now hnow) x (hmemL x hx))
    simpa using this
  constructor
  · have hfilter : times.filter (fun ts => decide (tf - interval < ts)) = times :=
      filter_window_all times _ (fun x hx => hwin tf htf x (hmemL x hx))
    rw [hrun]
    constructor
    · simp [RateLimiter.check, hfilter, hlen]
    · simp [RateLimiter.check, hfilter, hlen]
  · have hnil : stale.filter (fun ts => decide (now2 - interval < ts)) = [] := by
      rw [List.filter_eq_nil_iff]
      intro a ha
      simpa using Int.not_lt.mpr (hstale a ha)
    simp only [RateLimiter.check, List.filter_append, hnil, List.nil_append]

/-- Witness for C3: limit 2, interval 100, two calls at 10 and 20, the
third at 30 fails with remaining 0; a stale timestamp at minus 200 does
not change the result of a check at 30. -/
theorem rateLimiter_window_exhaustion_witness :
    (([10, 20] : List Int).length = 2 ∧
     (∀ now ∈ ([10, 20] : List Int) ++ [30], ∀ x ∈ ([10, 20] : List Int) ++ [30],
        now - 100 < x) ∧
     (∀ x ∈ ([-200] : List Int), x ≤ (30 : Int) - 100)) ∧
    (((RateLimiter.check 2 100 (RateLimiter.run 2 100 [] [10, 20]).2 30).1.success = false ∧
      (RateLimiter.check 2 100 (RateLimiter.run 2 100 [] [10, 20]).2 30).1.remaining = 0) ∧
     (RateLimiter.check 2 100 ([-200] ++ [5]) 30).1
       = (RateLimiter.check 2 100 [5] 30).1) :=
  ⟨⟨by decide, by decide, by decide⟩,
   rateLimiter_window_exhaustion 2 100 [10, 20] 30 (by decide) (by decide)
     [5] [-200] 30 (by decide)⟩

/-! ## Claim C4: hash extraction truncates, it does not reject. -/

theorem btihPat_eq :
    btihPat = ['x', 't', '=', 'u', 'r', 'n', ':', 'b', 't', 'i', 'h', ':'] := by decide

theorem isHexChar_ne_x (c : Char) (h : isHexChar c = true) : c ≠ 'x' := by
  intro hc
  subst hc
  exact absurd h (by decide)

theorem matchBtihAt_cons_ne (c : Char) (l : List Char) (hc : c ≠ 'x') :
    matchBtihAt (c :: l) = none := by
  have hne : ¬ ((c :: l).take 12 = btihPat) := by
    rw [List.take_succ_cons, btihPat_eq]
    intro h
    injection h with h1 _
    exact hc h1
  unfold matchBtihAt
  rw [if_neg hne]

theorem scanBtih_cons_ne (c : Char) (l : List Char) (hc : c ≠ 'x') :
    scanBtih (c :: l) = scanBtih l := by
  conv_lhs => rw [scanBtih]
  rw [matchBtihAt_cons_ne c l hc]

theorem scanBtih_all_hex (l : List Char) (h : ∀ c ∈ l, isHexChar c = true) :
    scanBtih l = none := by
  induction l with
  | nil => rfl
  | cons c rest ih =>
      rw [scanBtih_cons_ne c rest (isHexChar_ne_x c (h c (List.mem_cons_self c rest)))]
      exact ih (fun c' hc' => h c' (List.mem_cons_of_mem c hc'))

theorem matchBtihAt_pat (h : List Char) (hhex : ∀ c ∈ h, isHexChar c = true) :
    matchBtihAt (btihPat ++ h) =
      if 40 ≤ h.length then some (h.take 40)
      else if 32 ≤ h.length then some (h.take 32) else none := by
  have hpatlen : btihPat.length = 12 := by decide
  have htake : (btihPat ++ h).take 12 = btihPat := List.take_left' hpatlen
  have hdrop : (btihPat ++ h).drop 12 = h := List.drop_left' hpatlen
  unfold matchBtihAt
  rw [htake, if_pos rfl, hdrop]
  by_cases h40 : 40 ≤ h.length
  · have hlen40 : (h.take 40).length = 40 := by rw [List.length_take]; omega
    have hall40 : (h.take 40).all isHexChar = true := by
      rw [List.all_eq_true]
      intro c hc
      exact hhex c (List.take_subset _ _ hc)
    simp [hlen40, hall40, h40]
  · have hlen40 : ¬ ((h.take 40).length = 40) := by rw [List.length_take]; omega
    by_cases h32 : 32 ≤ h.length
    · have hlen32 : (h.take 32).length = 32 := by rw [List.length_take]; omega
      have hall32 : (h.take 32).all isHexChar = true := by
        rw [List.all_eq_true]
        intro c hc
        exact hhex c (List.take_subset _ _ hc)
      simp [hlen40, hlen32, hall32, h40, h32]
    · have hlen32 : ¬ ((h.take 32).length = 32) := by rw [List.length_take]; omega
      simp [hlen40, hlen32, h40, h32]

theorem scanBtih_pat_append (h : List Char) (hhex : ∀ c ∈ h, isHexChar c = true) :
    scanBtih (btihPat ++ h) =
      if 40 ≤ h.length then some (h.take 40)
      else if 32 ≤ h.length then some (h.take 32) else none := by
  have hshape : btihPat ++ h
      = 'x' :: (['t', '=', 'u', 'r', 'n', ':', 'b', 't', 'i', 'h', ':'] ++ h) := by
    rw [btihPat_eq]
    rfl
  conv_lhs => rw [hshape, scanBtih]
  rw [← hshape, matchBtihAt_pat h hhex]
  by_cases h40 : 40 ≤ h.length
  · simp [h40]
  · by_cases h32 : 32 ≤ h.length
    · simp [h40, h32]
    · simp only [h40, h32, if_false]
      simp only [List.cons_append, List.nil_append]
      rw [scanBtih_cons_ne _ _ (by decide), scanBtih_cons_ne _ _ (by decide),
        scanBtih_cons_ne _ _ (by decide), scanBtih_cons_ne _ _ (by decide),
        scanBtih_cons_ne _ _ (by decide), scanBtih_cons_ne _ _ (by decide),
        scanBtih_cons_ne _ _ (by decide), scanBtih_cons_ne _ _ (by decide),
        scanBtih_cons_ne _ _ (by decide), scanBtih_cons_ne _ _ (by decide),
        scanBtih_cons_ne _ _ (by decide)]
      exact scanBtih_all_hex h hhex

theorem scanBtih_magnet (h : List Char) (hhex : ∀ c ∈ h, isHexChar c = true) :
    scanBtih (("magnet:?xt=urn:btih:" ++ String.mk h).toList) =
      if 40 ≤ h.length then some (h.take 40)
      else if 32 ≤ h.length then some (h.take 32) else none := by
  have hdata : ("magnet:?xt=urn:btih:" ++ String.mk h).toList
      = 'm' :: 'a' :: 'g' :: 'n' :: 'e' :: 't' :: ':' :: '?' :: (btihPat ++ h) := by
    show ("magnet:?xt=urn:btih:" ++ String.mk h).data = _
    rw [String.data_append]
    rw [show ("magnet:?xt=urn:btih:").data
        = 'm' :: 'a' :: 'g' :: 'n' :: 'e' :: 't' :: ':' :: '?' :: btihPat from by decide]
    rfl
  rw [hdata]
  rw [scanBtih_cons_ne _ _ (by decide), scanBtih_cons_ne _ _ (by decide),
    scanBtih_cons_ne _ _ (by decide), scanBtih_cons_ne _ _ (by decide),
    scanBtih_cons_ne _ _ (by decide), scanBtih_cons_ne _ _ (by decide),
    scanBtih_cons_ne _ _ (by decide), scanBtih_cons_ne _ _ (by decide)]
  exact scanBtih_pat_append h hhex

/-- C4 amended: extraction is case insensitive in the hash characters
and lowercases its result, but it truncates instead of rejecting: when
at least 40 hexadecimal characters follow the btih marker it returns
the first 40 lowercased, when 32 to 39 follow it returns the first 32
lowercased, and only a run shorter than 32 is rejected with none. -/
theorem extractHash_amended (h : List Char) (hhex : ∀ c ∈ h, isHexChar c = true) :
    (40 ≤ h.length →
      extractHashFromMagnet ("magnet:?xt=urn:btih:" ++ String.mk h)
        = some (String.mk ((h.take 40).map Char.toLower))) ∧
    (32 ≤ h.length → h.length < 40 →
      extractHashFromMagnet ("magnet:?xt=urn:btih:" ++ String.mk h)
        = some (String.mk ((h.take 32).map Char.toLower))) ∧
    (h.length < 32 →
      extractHashFromMagnet ("magnet:?xt=urn:btih:" ++ String.mk h) = none) := by
  refine ⟨fun h40 => ?_, fun h32 h40 => ?_, fun h32 => ?_⟩
  · unfold extractHashFromMagnet
    rw [scanBtih_magnet h hhex, if_pos h40]
    rfl
  · unfold extractHashFromMagnet
    rw [scanBtih_magnet h hhex, if_neg (by omega), if_pos h32]
    rfl
  · unfold extractHashFromMagnet
    rw [scanBtih_magnet h hhex, if_neg (by omega), if_neg (by omega)]
    rfl

/-- Witness for C4 amended on a 45 character hash run: the first 40
characters are returned lowercased. -/
theorem extractHash_amended_witness :
    (∀ c ∈ List.replicate 45 'B', isHexChar c = true) ∧
    (40 ≤ (List.replicate 45 'B').length →
      extractHashFromMagnet ("magnet:?xt=urn:btih:" ++ String.mk (List.replicate 45 'B'))
        = some (String.mk (((List.replicate 45 'B').take 40).map Char.toLower))) :=
  ⟨by decide, (extractHash_amended (List.replicate 45 'B') (by decide)).1⟩

/-- C4 counterexample: a magnet whose btih parameter is a 36 character
hexadecimal run, neither 32 nor 40 long, is not rejected: the code
returns the first 32 characters lowercased. -/
theorem extractHash_truncates_cex :
    (btihParamRun ("magnet:?xt=urn:btih:AAAAAAAAAAAAAAAAAAAAAAAAAAAAAAAAAAAA").toList).map
        List.length = some 36 ∧
    extractHashFromMagnet "magnet:?xt=urn:btih:AAAAAAAAAAAAAAAAAAAAAAAAAAAAAAAAAAAA"
      = some "aaaaaaaaaaaaaaaaaaaaaaaaaaaaaaaa" := by
  decide

/-! ## Claim C7: the success terminal branch of processJob. -/

/-- C7. On a success terminal poll, processJob caches the stream link
under the stream key of the job with ttl equal to expires minus now,
fires onComplete exactly once with the stream url, and removes the job
from the set. The hypotheses rule out the timeout escape and assert the
spec level invariant that expires is a future timestamp at creation. -/
theorem processJob_success_terminal (s : PollerState) (cache : MemoryCache StreamLink)
    (now : Nat) (j : PollingJob) (ti : TorrentInfo) (sl : StreamLink)
    (hst : ti.status = TorrentStatus.downloaded)
    (hretry : j.retryCount + 1 ≤ maxRetries)
    (helapsed : now - j.startTime ≤ maxJobLifetime)
    (hexp : now < sl.expires) :
    (s.processJob cache now j (.ok ti) (.ok sl)).2.2
        = [(j.id, JobEvent.complete sl.url)] ∧
    mapGet (s.processJob cache now j (.ok ti) (.ok sl)).2.1
        ("stream:" ++ j.provider ++ ":" ++ j.torrentId ++ ":0")
      = some ⟨sl, now, sl.expires - now⟩ ∧
    mapGet (s.processJob cache now j (.ok ti) (.ok sl)).1.jobs j.id = none := by
  have hesc : ¬ (maxRetries < j.retryCount + 1 ∨ maxJobLifetime < now - j.startTime) := by
    push_neg
    exact ⟨hretry, helapsed⟩
  have httl : ¬ (sl.expires - now = 0) := by omega
  unfold PollerState.processJob
  simp only [hst]
  rw [if_neg hesc]
  refine ⟨rfl, ?_, ?_⟩
  · simp [MemoryCache.set, httl, mapGet_mapSet_self]
  · rw [removeJob_jobs]
    exact mapGet_mapDelete_self _ _

/-- A concrete stream link for the C7 witness. -/
def slSample : StreamLink :=
  { url := "https://dl.example/s", quality := "1080p", size := 1, sizeFormatted := "1.0 B"
    filename := "f.mkv", mimeType := "video/x-matroska", expires := 1000
    headers := [("User-Agent", "Heimdall/1.0.0")], subtitles := none }

def jSample : PollingJob := ⟨"jw", "tw", "real-debrid", "u", 0, 0⟩

/-- Witness for C7 at a one job state polled at time 5. -/
theorem processJob_success_terminal_witness :
    (tiDone.status = TorrentStatus.downloaded ∧
     jSample.retryCount + 1 ≤ maxRetries ∧
     (5 : Nat) - jSample.startTime ≤ maxJobLifetime ∧
     (5 : Nat) < slSample.expires) ∧
    ((PollerState.processJob ⟨[("jw", jSample)], true⟩ [] 5 jSample
        (.ok tiDone) (.ok slSample)).2.2 = [("jw", JobEvent.complete slSample.url)] ∧
     mapGet (PollerState.processJob ⟨[("jw", jSample)], true⟩ [] 5 jSample
        (.ok tiDone) (.ok slSample)).2.1
        ("stream:" ++ jSample.provider ++ ":" ++ jSample.torrentId ++ ":0")
       = some ⟨slSample, 5, slSample.expires - 5⟩ ∧
     mapGet (PollerState.processJob ⟨[("jw", jSample)], true⟩ [] 5 jSample
        (.ok tiDone) (.ok slSample)).1.jobs jSample.id = none) :=
  ⟨⟨by decide, by decide, by decide, by decide⟩, by
    have h := processJob_success_terminal ⟨[("jw", jSample)], true⟩ [] 5 jSample
      tiDone slSample (by decide) (by decide) (by decide) (by decide)
    simpa [jSample] using h⟩

/-! ## Claim C8: at most once delivery. Structural infrastructure:
well formed job maps, counting lemmas, and the shape of processJob. -/

/-- A well formed poller state: keys are unique, as in a JS Map, and
every stored job carries its own key as id, which addJob guarantees. -/
def GoodState (s : PollerState) : Prop :=
  (s.jobs.map Prod.fst).Nodup ∧ ∀ kv ∈ s.jobs, kv.2.id = kv.1

theorem insertByStart_perm (kv : String × PollingJob) (l : List (String × PollingJob)) :
    (insertByStart kv l).Perm (kv :: l) := by
  induction l with
  | nil => exact List.Perm.refl _
  | cons kv' rest ih =>
      by_cases h : kv'.2.startTime ≤ kv.2.startTime
      · rw [insertByStart, if_pos h]
        exact ((ih.cons kv').trans (List.Perm.swap kv kv' rest))
      · rw [insertByStart, if_neg h]

theorem sortByStartTime_perm (l : List (String × PollingJob)) :
    (sortByStartTime l).Perm l := by
  induction l with
  | nil => exact List.Perm.refl _
  | cons kv rest ih =>
      exact (insertByStart_perm kv (sortByStartTime rest)).trans (ih.cons kv)

theorem mem_mapSet {α : Type} (l : List (String × α)) (k : String) (v : α)
    (x : String × α) (hx : x ∈ mapSet l k v) : x = (k, v) ∨ x ∈ l := by
  induction l with
  | nil => simpa [mapSet] using hx
  | cons kv rest ih =>
      obtain ⟨k₀, v₀⟩ := kv
      by_cases hk : k₀ = k
      · rw [mapSet, if_pos hk] at hx
        rcases List.mem_cons.mp hx with h | h
        · exact Or.inl h
        · exact Or.inr (List.mem_cons_of_mem _ h)
      · rw [mapSet, if_neg hk] at hx
        rcases List.mem_cons.mp hx with h | h
        · exact Or.inr (h ▸ List.mem_cons_self _ _)
        · rcases ih h with h' | h'
          · exact Or.inl h'
          · exact Or.inr (List.mem_cons_of_mem _ h')

theorem mem_mapUpdate {α : Type} (l : List (String × α)) (k : String) (v : α)
    (x : String × α) (hx : x ∈ mapUpdate l k v) : x = (k, v) ∨ x ∈ l := by
  induction l with
  | nil => simp [mapUpdate] at hx
  | cons kv rest ih =>
      obtain ⟨k₀, v₀⟩ := kv
      by_cases hk : k₀ = k
      · rw [mapUpdate, if_pos hk] at hx
        rcases List.mem_cons.mp hx with h | h
        · exact Or.inl h
        · rcases ih h with h' | h'
          · exact Or.inl h'
          · exact Or.inr (List.mem_cons_of_mem _ h')
      · rw [mapUpdate, if_neg hk] at hx
        rcases List.mem_cons.mp hx with h | h
        · exact Or.inr (h ▸ List.mem_cons_self _ _)
        · rcases ih h with h' | h'
          · exact Or.inl h'
          · exact Or.inr (List.mem_cons_of_mem _ h')

theorem keys_mapUpdate {α : Type} (l : List (String × α)) (k : String) (v : α) :
    (mapUpdate l k v).map Prod.fst = l.map Prod.fst := by
  induction l with
  | nil => rfl
  | cons kv rest ih =>
      obtain ⟨k₀, v₀⟩ := kv
      by_cases hk : k₀ = k
      · subst hk
        simp [mapUpdate, ih]
      · simp [mapUpdate, hk, ih]

theorem keys_mapSet_mem {α : Type} (l : List (String × α)) (k : String) (v : α)
    (x : String) (hx : x ∈ (mapSet l k v).map Prod.fst) :
    x ∈ l.map Prod.fst ∨ x = k := by
  rcases List.mem_map.mp hx with ⟨kv, hkv, rfl⟩
  rcases mem_mapSet l k v kv hkv with h | h
  · exact Or.inr (by rw [h])
  · exact Or.inl (List.mem_map.mpr ⟨kv, h, rfl⟩)

theorem nodup_keys_mapSet {α : Type} (l : List (String × α)) (k : String) (v : α)
    (h : (l.map Prod.fst).Nodup) : ((mapSet l k v).map Prod.fst).Nodup := by
  induction l with
  | nil => simp [mapSet]
  | cons kv rest ih =>
      obtain ⟨k₀, v₀⟩ := kv
      rw [List.map_cons, List.nodup_cons] at h
      by_cases hk : k₀ = k
      · subst hk
        simpa [mapSet, List.nodup_cons] using h
      · rw [mapSet, if_neg hk, List.map_cons, List.nodup_cons]
        refine ⟨fun hmem => ?_, ih h.2⟩
        rcases keys_mapSet_mem rest k v k₀ hmem with h' | h'
        · exact h.1 h'
        · exact hk h'

theorem goodState_mapDelete (s : PollerState) (k : String) (h : GoodState s) :
    GoodState { s with jobs := mapDelete s.jobs k } := by
  refine ⟨h.1.sublist ((List.filter_sublist s.jobs).map Prod.fst), ?_⟩
  intro kv hkv
  exact h.2 kv (List.mem_of_mem_filter hkv)

theorem goodState_removeJob (s : PollerState) (k : String) (h : GoodState s) :
    GoodState (s.removeJob k) := by
  unfold PollerState.removeJob PollerState.stopPolling
  split
  · exact goodState_mapDelete s k h
  · exact goodState_mapDelete s k h

theorem goodState_mapSet (s : PollerState) (k : String) (v : PollingJob)
    (hv : v.id = k) (h : GoodState s) :
    GoodState { s with jobs := mapSet s.jobs k v } := by
  refine ⟨nodup_keys_mapSet _ _ _ h.1, ?_⟩
  intro kv hkv
  rcases mem_mapSet _ _ _ kv hkv with h' | h'
  · rw [h']
    exact hv
  · exact h.2 kv h'

theorem goodState_mapUpdate (s : PollerState) (k : String) (v : PollingJob)
    (hv : v.id = k) (h : GoodState s) :
    GoodState { s with jobs := mapUpdate s.jobs k v } := by
  refine ⟨by rw [keys_mapUpdate]; exact h.1, ?_⟩
  intro kv hkv
  rcases mem_mapUpdate _ _ _ kv hkv with h' | h'
  · rw [h']
    exact hv
  · exact h.2 kv h'

/-- In a list with unique keys, at most one entry carries a given key. -/
theorem countP_key_le_one {α : Type} (l : List (String × α)) (id : String)
    (h : (l.map Prod.fst).Nodup) :
    l.countP (fun kv => decide (kv.1 = id)) ≤ 1 := by
  induction l with
  | nil => simp
  | cons kv rest ih =>
      rw [List.map_cons, List.nodup_cons] at h
      rw [List.countP_cons]
      by_cases hk : kv.1 = id
      · have hzero : rest.countP (fun kv => decide (kv.1 = id)) = 0 := by
          rw [List.countP_eq_zero]
          intro a ha
          simp only [decide_eq_true_eq]
          intro haid
          exact h.1 (hk ▸ haid ▸ List.mem_map.mpr ⟨a, ha, rfl⟩)
        simp [hk, hzero]
      · simpa [hk] using ih h.2

/-- An absent key has no entries at all. -/
theorem countP_key_eq_zero {α : Type} (l : List (String × α)) (id : String)
    (h : mapGet l id = none) :
    l.countP (fun kv => decide (kv.1 = id)) = 0 := by
  rw [List.countP_eq_zero]
  intro a ha
  simp only [decide_eq_true_eq]
  intro haid
  exact (mapGet_eq_none_iff l id).mp h (haid ▸ List.mem_map.mpr ⟨a, ha, rfl⟩)

theorem eventsFor_append (id : String) (a b : JobTrace) :
    eventsFor id (a ++ b) = eventsFor id a + eventsFor id b := by
  simp [eventsFor, List.filter_append]

theorem eventsFor_keyed (id : String) {α : Type} (l : List (String × α))
    (f : String × α → JobEvent) :
    eventsFor id (l.map (fun kv => (kv.1, f kv)))
      = l.countP (fun kv => decide (kv.1 = id)) := by
  induction l with
  | nil => rfl
  | cons kv rest ih =>
      by_cases hk : kv.1 = id
      · simp [eventsFor, List.countP_cons, hk] at ih ⊢
        omega
      · simpa [eventsFor, List.countP_cons, hk] using ih

/-- Every branch of processJob either leaves the job set untouched up
to the retry counter mutation and emits nothing, or removes the
processed job and emits exactly one event tagged with its id. -/
theorem processJob_shape (s : PollerState) (c : MemoryCache StreamLink) (now : Nat)
    (j : PollingJob) (i : Except DebridError TorrentInfo)
    (st : Except DebridError StreamLink) :
    (∃ j1 : PollingJob, j1.id = j.id ∧
      s.processJob c now j i st = ({ s with jobs := mapUpdate s.jobs j.id j1 }, c, [])) ∨
    (∃ (j1 : PollingJob) (c' : MemoryCache StreamLink) (e : JobEvent), j1.id = j.id ∧
      s.processJob c now j i st
        = (PollerState.removeJob { s with jobs := mapUpdate s.jobs j.id j1 } j.id, c',
           [(j.id, e)])) := by
  unfold PollerState.processJob
  by_cases hesc : maxRetries < j.retryCount + 1 ∨ maxJobLifetime < now - j.startTime
  · rw [if_pos hesc]
    exact Or.inr ⟨{ j with retryCount := j.retryCount + 1 }, _, _, rfl, rfl⟩
  · rw [if_neg hesc]
    cases i with
    | error err =>
        dsimp only
        by_cases hr : maxRetries ≤ j.retryCount + 1
        · rw [if_pos hr]
          exact Or.inr ⟨{ j with retryCount := j.retryCount + 1 }, _, _, rfl, rfl⟩
        · rw [if_neg hr]
          exact Or.inl ⟨{ j with retryCount := j.retryCount + 1 }, rfl, rfl⟩
    | ok ti =>
        dsimp only
        cases hstatus : ti.status with
        | downloaded =>
            cases st with
            | ok sl => exact Or.inr ⟨{ j with retryCount := j.retryCount + 1 }, _, _, rfl, rfl⟩
            | error e => exact Or.inr ⟨{ j with retryCount := j.retryCount + 1 }, _, _, rfl, rfl⟩
        | error => exact Or.inr ⟨{ j with retryCount := j.retryCount + 1 }, _, _, rfl, rfl⟩
        | virus => exact Or.inr ⟨{ j with retryCount := j.retryCount + 1 }, _, _, rfl, rfl⟩
        | dead => exact Or.inr ⟨{ j with retryCount := j.retryCount + 1 }, _, _, rfl, rfl⟩
        | waiting_files_selection => exact Or.inl ⟨{ j with retryCount := j.retryCount + 1 }, rfl, rfl⟩
        | queued => exact Or.inl ⟨{ j with retryCount := j.retryCount + 1 }, rfl, rfl⟩
        | downloading => exact Or.inl ⟨{ j with retryCount := j.retryCount + 1 }, rfl, rfl⟩
        | compressing => exact Or.inl ⟨{ j with retryCount := j.retryCount + 1 }, rfl, rfl⟩
        | uploading => exact Or.inl ⟨{ j with retryCount := j.retryCount + 1 }, rfl, rfl⟩

theorem processJob_events_ne (s : PollerState) (c : MemoryCache StreamLink) (now : Nat)
    (j : PollingJob) (i : Except DebridError TorrentInfo)
    (st : Except DebridError StreamLink) (id : String) (hid : id ≠ j.id) :
    eventsFor id (s.processJob c now j i st).2.2 = 0 ∧
    mapGet (s.processJob c now j i st).1.jobs id = mapGet s.jobs id := by
  have hjid : ¬ (j.id = id) := fun e => hid e.symm
  rcases processJob_shape s c now j i st with ⟨j1, _, heq⟩ | ⟨j1, c', e, _, heq⟩
  · rw [heq]
    exact ⟨rfl, mapGet_mapUpdate_ne _ _ _ _ hid⟩
  · rw [heq]
    constructor
    · simp [eventsFor, hjid]
    · rw [removeJob_jobs, mapGet_mapDelete_ne _ _ _ hid]
      exact mapGet_mapUpdate_ne _ _ _ _ hid

theorem processJob_events_self (s : PollerState) (c : MemoryCache StreamLink) (now : Nat)
    (j : PollingJob) (i : Except DebridError TorrentInfo)
    (st : Except DebridError StreamLink) :
    eventsFor j.id (s.processJob c now j i st).2.2 ≤ 1 ∧
    (eventsFor j.id (s.processJob c now j i st).2.2 = 0 →
      (mapGet (s.processJob c now j i st).1.jobs j.id).isSome
        = (mapGet s.jobs j.id).isSome) ∧
    (1 ≤ eventsFor j.id (s.processJob c now j i st).2.2 →
      mapGet (s.processJob c now j i st).1.jobs j.id = none) := by
  rcases processJob_shape s c now j i st with ⟨j1, _, heq⟩ | ⟨j1, c', e, _, heq⟩
  · rw [heq]
    refine ⟨by simp [eventsFor], fun _ => mapGet_mapUpdate_isSome _ _ _, fun h1 => ?_⟩
    simp [eventsFor] at h1
  · rw [heq]
    have hone : eventsFor j.id [(j.id, e)] = 1 := by simp [eventsFor]
    refine ⟨le_of_eq hone, fun h0 => ?_, fun _ => ?_⟩
    · rw [hone] at h0
      exact absurd h0 one_ne_zero
    · rw [removeJob_jobs]
      exact mapGet_mapDelete_self _ _

theorem goodState_processJob (s : PollerState) (c : MemoryCache StreamLink) (now : Nat)
    (j : PollingJob) (i : Except DebridError TorrentInfo)
    (st : Except DebridError StreamLink) (h : GoodState s) :
    GoodState (s.processJob c now j i st).1 := by
  rcases processJob_shape s c now j i st with ⟨j1, hid, heq⟩ | ⟨j1, c', e, hid, heq⟩
  · rw [heq]
    exact goodState_mapUpdate s j.id j1 hid h
  · rw [heq]
    exact goodState_removeJob _ _ (goodState_mapUpdate s j.id j1 hid h)

/-- The step of a tick fold, named for the proofs below. -/
def tickStep (now : Nat) (info : String → Except DebridError TorrentInfo)
    (stream : String → Except DebridError StreamLink)
    (acc : PollerState × MemoryCache StreamLink × JobTrace) (j : PollingJob) :
    PollerState × MemoryCache StreamLink × JobTrace :=
  ((acc.1.processJob acc.2.1 now j (info j.torrentId) (stream j.torrentId)).1,
   (acc.1.processJob acc.2.1 now j (info j.torrentId) (stream j.torrentId)).2.1,
   acc.2.2 ++ (acc.1.processJob acc.2.1 now j (info j.torrentId) (stream j.torrentId)).2.2)

theorem tick_eq_fold (s : PollerState) (c : MemoryCache StreamLink) (now : Nat)
    (info : String → Except DebridError TorrentInfo)
    (stream : String → Except DebridError StreamLink) :
    s.tick c now info stream
      = (s.jobs.map Prod.snd).foldl (tickStep now info stream) (s, c, []) := rfl

theorem tickFold_shift (now : Nat) (info : String → Except DebridError TorrentInfo)
    (stream : String → Except DebridError StreamLink) (l : List PollingJob) :
    ∀ (st : PollerState) (c : MemoryCache StreamLink) (tr0 : JobTrace),
      l.foldl (tickStep now info stream) (st, c, tr0)
        = ((l.foldl (tickStep now info stream) (st, c, [])).1,
           (l.foldl (tickStep now info stream) (st, c, [])).2.1,
           tr0 ++ (l.foldl (tickStep now info stream) (st, c, [])).2.2) := by
  induction l with
  | nil => intro st c tr0; simp
  | cons jb rest ih =>
      intro st c tr0
      have e1 : (jb :: rest).foldl (tickStep now info stream) (st, c, tr0)
          = rest.foldl (tickStep now info stream)
              ((st.processJob c now jb (info jb.torrentId) (stream jb.torrentId)).1,
               (st.processJob c now jb (info jb.torrentId) (stream jb.torrentId)).2.1,
               tr0 ++ (st.processJob c now jb (info jb.torrentId)
                 (stream jb.torrentId)).2.2) := rfl
      have e2 : (jb :: rest).foldl (tickStep now info stream) (st, c, [])
          = rest.foldl (tickStep now info stream)
              ((st.processJob c now jb (info jb.torrentId) (stream jb.torrentId)).1,
               (st.processJob c now jb (info jb.torrentId) (stream jb.torrentId)).2.1,
               (st.processJob c now jb (info jb.torrentId) (stream jb.torrentId)).2.2) := rfl
      rw [e1, e2, ih _ _ (tr0 ++ _), ih _ _ ((st.processJob c now jb (info jb.torrentId)
        (stream jb.torrentId)).2.2)]
      simp [List.append_assoc]

theorem tickFold_good (now : Nat) (info : String → Except DebridError TorrentInfo)
    (stream : String → Except DebridError StreamLink) (l : List PollingJob) :
    ∀ (st : PollerState) (c : MemoryCache StreamLink) (tr : JobTrace), GoodState st →
      GoodState (l.foldl (tickStep now info stream) (st, c, tr)).1 := by
  induction l with
  | nil => intro st c tr h; exact h
  | cons jb rest ih =>
      intro st c tr h
      exact ih _ _ _ (goodState_processJob st c now jb _ _ h)

theorem tickFold_absent (now : Nat) (info : String → Except DebridError TorrentInfo)
    (stream : String → Except DebridError StreamLink) (l : List PollingJob) :
    ∀ (st : PollerState) (c : MemoryCache StreamLink) (id : String),
      (∀ jb ∈ l, jb.id ≠ id) →
      eventsFor id (l.foldl (tickStep now info stream) (st, c, [])).2.2 = 0 ∧
      mapGet (l.foldl (tickStep now info stream) (st, c, [])).1.jobs id
        = mapGet st.jobs id := by
  induction l with
  | nil => intro st c id _; exact ⟨rfl, rfl⟩
  | cons jb rest ih =>
      intro st c id hall
      have hne : id ≠ jb.id := fun e => hall jb (List.mem_cons_self jb rest) e.symm
      have hstep := processJob_events_ne st c now jb (info jb.torrentId)
        (stream jb.torrentId) id hne
      have e2 : (jb :: rest).foldl (tickStep now info stream) (st, c, [])
          = rest.foldl (tickStep now info stream)
              ((st.processJob c now jb (info jb.torrentId) (stream jb.torrentId)).1,
               (st.processJob c now jb (info jb.torrentId) (stream jb.torrentId)).2.1,
               (st.processJob c now jb (info jb.torrentId) (stream jb.torrentId)).2.2) := rfl
      rw [e2, tickFold_shift now info stream rest]
      have hrest := ih (st.processJob c now jb (info jb.torrentId) (stream jb.torrentId)).1
        (st.processJob c now jb (info jb.torrentId) (stream jb.torrentId)).2.1 id
        (fun x hx => hall x (List.mem_cons_of_mem jb hx))
      constructor
      · rw [eventsFor_append, hstep.1, hrest.1]
      · rw [hrest.2, hstep.2]

theorem tickFold_present (now : Nat) (info : String → Except DebridError TorrentInfo)
    (stream : String → Except DebridError StreamLink) (l : List PollingJob) :
    ∀ (st : PollerState) (c : MemoryCache StreamLink) (id : String),
      l.countP (fun jb => decide (jb.id = id)) ≤ 1 →
      eventsFor id (l.foldl (tickStep now info stream) (st, c, [])).2.2 ≤ 1 ∧
      (eventsFor id (l.foldl (tickStep now info stream) (st, c, [])).2.2 = 0 →
        (mapGet (l.foldl (tickStep now info stream) (st, c, [])).1.jobs id).isSome
          = (mapGet st.jobs id).isSome) ∧
      (1 ≤ eventsFor id (l.foldl (tickStep now info stream) (st, c, [])).2.2 →
        mapGet (l.foldl (tickStep now info stream) (st, c, [])).1.jobs id = none) := by
  induction l with
  | nil => intro st c id _; exact ⟨by simp [eventsFor], fun _ => rfl, by simp [eventsFor]⟩
  | cons jb rest ih =>
      intro st c id hcount
      have e2 : (jb :: rest).foldl (tickStep now info stream) (st, c, [])
          = rest.foldl (tickStep now info stream)
              ((st.processJob c now jb (info jb.torrentId) (stream jb.torrentId)).1,
               (st.processJob c now jb (info jb.torrentId) (stream jb.torrentId)).2.1,
               (st.processJob c now jb (info jb.torrentId) (stream jb.torrentId)).2.2) := rfl
      rw [e2, tickFold_shift now info stream rest]
      rw [List.countP_cons] at hcount
      by_cases hjb : jb.id = id
      · have hrest0 : rest.countP (fun jb => decide (jb.id = id)) = 0 := by
          have hdec : (decide (jb.id = id)) = true := decide_eq_true hjb
          simp only [hdec, if_true] at hcount
          omega
        have hall : ∀ x ∈ rest, x.id ≠ id := by
          rw [List.countP_eq_zero] at hrest0
          intro x hx
          have := hrest0 x hx
          simpa using this
        have habs := tickFold_absent now info stream rest
          (st.processJob c now jb (info jb.torrentId) (stream jb.torrentId)).1
          (st.processJob c now jb (info jb.torrentId) (stream jb.torrentId)).2.1 id hall
        have hself := processJob_events_self st c now jb (info jb.torrentId)
          (stream jb.torrentId)
        rw [hjb] at hself
        refine ⟨?_, fun h0 => ?_, fun h1 => ?_⟩
        · rw [eventsFor_append, habs.1]
          omega
        · rw [eventsFor_append, habs.1, Nat.add_zero] at h0
          rw [habs.2]
          exact hself.2.1 h0
        · rw [eventsFor_append, habs.1, Nat.add_zero] at h1
          rw [habs.2]
          exact hself.2.2 h1
      · have hne : id ≠ jb.id := fun e => hjb e.symm
        have hstep := processJob_events_ne st c now jb (info jb.torrentId)
          (stream jb.torrentId) id hne
        have hcount' : rest.countP (fun jb => decide (jb.id = id)) ≤ 1 := by
          simp [hjb] at hcount
          omega
        have hrest := ih (st.processJob c now jb (info jb.torrentId) (stream jb.torrentId)).1
          (st.processJob c now jb (info jb.torrentId) (stream jb.torrentId)).2.1 id hcount'
        refine ⟨?_, fun h0 => ?_, fun h1 => ?_⟩
        · rw [eventsFor_append, hstep.1, Nat.zero_add]
          exact hrest.1
        · rw [eventsFor_append, hstep.1, Nat.zero_add] at h0
          rw [← hstep.2]
          exact hrest.2.1 h0
        · rw [eventsFor_append, hstep.1, Nat.zero_add] at h1
          exact hrest.2.2 h1

/-! Removal folds, used by cleanupOldJobs. -/

theorem foldRemove_absent (old : List (String × PollingJob)) :
    ∀ (s : PollerState) (id : String), mapGet s.jobs id = none →
      mapGet ((old.foldl (fun st kv => st.removeJob kv.1) s)).jobs id = none := by
  induction old with
  | nil => intro s id h; exact h
  | cons kv rest ih =>
      intro s id h
      refine ih _ _ ?_
      rw [removeJob_jobs]
      by_cases hk : id = kv.1
      · rw [hk]
        exact mapGet_mapDelete_self _ _
      · rw [mapGet_mapDelete_ne _ _ _ hk]
        exact h

theorem foldRemove_not_mem (old : List (String × PollingJob)) :
    ∀ (s : PollerState) (id : String), id ∉ old.map Prod.fst →
      mapGet ((old.foldl (fun st kv => st.removeJob kv.1) s)).jobs id
        = mapGet s.jobs id := by
  induction old with
  | nil => intro s id _; rfl
  | cons kv rest ih =>
      intro s id hmem
      rw [List.map_cons, List.mem_cons] at hmem
      push_neg at hmem
      have h1 : (kv :: rest).foldl (fun st kv => st.removeJob kv.1) s
          = rest.foldl (fun st kv => st.removeJob kv.1) (s.removeJob kv.1) := rfl
      rw [h1, ih _ _ hmem.2, removeJob_jobs, mapGet_mapDelete_ne _ _ _ hmem.1]

theorem foldRemove_mem (old : List (String × PollingJob)) :
    ∀ (s : PollerState) (id : String), id ∈ old.map Prod.fst →
      mapGet ((old.foldl (fun st kv => st.removeJob kv.1) s)).jobs id = none := by
  induction old with
  | nil => intro s id h; simp at h
  | cons kv rest ih =>
      intro s id hmem
      rw [List.map_cons, List.mem_cons] at hmem
      by_cases hk : id = kv.1
      · refine foldRemove_absent rest _ _ ?_
        rw [removeJob_jobs, hk]
        exact mapGet_mapDelete_self _ _
      · exact ih _ _ (hmem.resolve_left hk)

theorem goodState_foldRemove (old : List (String × PollingJob)) :
    ∀ s : PollerState, GoodState s →
      GoodState (old.foldl (fun st kv => st.removeJob kv.1) s) := by
  induction old with
  | nil => intro s h; exact h
  | cons kv rest ih =>
      intro s h
      exact ih _ (goodState_removeJob s kv.1 h)

theorem countP_congr_mem {α : Type} (l : List α) (p q : α → Bool)
    (h : ∀ a ∈ l, p a = q a) : l.countP p = l.countP q := by
  induction l with
  | nil => rfl
  | cons a rest ih =>
      rw [List.countP_cons, List.countP_cons,
        ih (fun x hx => h x (List.mem_cons_of_mem a hx)), h a (List.mem_cons_self a rest)]

/-! Event and presence facts about cleanupOldJobs and the operations. -/

theorem cleanup_trace_eq (s : PollerState) (now : Nat) :
    (s.cleanupOldJobs now).2
      = ((sortByStartTime (s.jobs.filter
          (fun kv => staleAge < now - kv.2.startTime))).take 10).map
          (fun kv => (kv.1, JobEvent.error "Job cleanup timeout")) := rfl

theorem cleanup_state_eq (s : PollerState) (now : Nat) :
    (s.cleanupOldJobs now).1
      = ((sortByStartTime (s.jobs.filter
          (fun kv => staleAge < now - kv.2.startTime))).take 10).foldl
          (fun st kv => st.removeJob kv.1) s := rfl

theorem cleanup_eventsFor_eq (s : PollerState) (now : Nat) (id : String) :
    eventsFor id (s.cleanupOldJobs now).2
      = ((sortByStartTime (s.jobs.filter
          (fun kv => staleAge < now - kv.2.startTime))).take 10).countP
          (fun kv => decide (kv.1 = id)) := by
  rw [cleanup_trace_eq]
  exact eventsFor_keyed id _ _

theorem cleanup_countP_le (s : PollerState) (now : Nat) (id : String) :
    ((sortByStartTime (s.jobs.filter
        (fun kv => staleAge < now - kv.2.startTime))).take 10).countP
        (fun kv => decide (kv.1 = id))
      ≤ s.jobs.countP (fun kv => decide (kv.1 = id)) := by
  refine le_trans ((List.take_sublist _ _).countP_le _) ?_
  rw [(sortByStartTime_perm _).countP_eq]
  exact (List.filter_sublist _).countP_le _

theorem cleanup_events_le_one (s : PollerState) (now : Nat) (id : String)
    (h : (s.jobs.map Prod.fst).Nodup) :
    eventsFor id (s.cleanupOldJobs now).2 ≤ 1 := by
  rw [cleanup_eventsFor_eq]
  exact le_trans (cleanup_countP_le s now id) (countP_key_le_one _ _ h)

theorem cleanup_events_zero_of_absent (s : PollerState) (now : Nat) (id : String)
    (h : mapGet s.jobs id = none) :
    eventsFor id (s.cleanupOldJobs now).2 = 0 := by
  rw [cleanup_eventsFor_eq]
  have hle := cleanup_countP_le s now id
  rw [countP_key_eq_zero _ _ h] at hle
  omega

theorem cleanup_state_of_zero (s : PollerState) (now : Nat) (id : String)
    (h : eventsFor id (s.cleanupOldJobs now).2 = 0) :
    mapGet (s.cleanupOldJobs now).1.jobs id = mapGet s.jobs id := by
  rw [cleanup_state_eq]
  refine foldRemove_not_mem _ _ _ ?_
  intro hmem
  rcases List.mem_map.mp hmem with ⟨kv, hkv, rfl⟩
  rw [cleanup_eventsFor_eq, List.countP_eq_zero] at h
  exact absurd (decide_eq_true rfl) (h kv hkv)

theorem cleanup_state_of_one (s : PollerState) (now : Nat) (id : String)
    (h : 1 ≤ eventsFor id (s.cleanupOldJobs now).2) :
    mapGet (s.cleanupOldJobs now).1.jobs id = none := by
  rw [cleanup_state_eq]
  refine foldRemove_mem _ _ _ ?_
  rw [cleanup_eventsFor_eq] at h
  obtain ⟨kv, hkv, hp⟩ := List.countP_pos_iff.mp (lt_of_lt_of_le zero_lt_one h)
  have hp' : kv.1 = id := of_decide_eq_true hp
  exact hp' ▸ List.mem_map.mpr ⟨kv, hkv, rfl⟩

theorem goodState_cleanup (s : PollerState) (now : Nat) (h : GoodState s) :
    GoodState (s.cleanupOldJobs now).1 := by
  rw [cleanup_state_eq]
  exact goodState_foldRemove _ s h

/-! addJob level facts. -/

theorem goodState_addJob (s : PollerState) (j : PollingJob) (now : Nat)
    (h : GoodState s) : GoodState (s.addJob j now).1 := by
  unfold PollerState.addJob
  by_cases hcap : maxJobs ≤ s.jobs.length
  · rw [if_pos hcap]
    exact goodState_mapSet _ _ _ rfl (goodState_cleanup s now h)
  · rw [if_neg hcap]
    exact goodState_mapSet _ _ _ rfl h

theorem addJob_trace_cases (s : PollerState) (j : PollingJob) (now : Nat) :
    (s.addJob j now).2 = (s.cleanupOldJobs now).2 ∨ (s.addJob j now).2 = [] := by
  unfold PollerState.addJob
  by_cases hcap : maxJobs ≤ s.jobs.length
  · rw [if_pos hcap]
    exact Or.inl rfl
  · rw [if_neg hcap]
    exact Or.inr rfl

theorem addJob_events_le_one (s : PollerState) (j : PollingJob) (now : Nat) (id : String)
    (h : (s.jobs.map Prod.fst).Nodup) :
    eventsFor id (s.addJob j now).2 ≤ 1 := by
  rcases addJob_trace_cases s j now with heq | heq <;> rw [heq]
  · exact cleanup_events_le_one s now id h
  · simp [eventsFor]

theorem addJob_events_zero_of_absent (s : PollerState) (j : PollingJob) (now : Nat)
    (id : String) (ha : mapGet s.jobs id = none) :
    eventsFor id (s.addJob j now).2 = 0 := by
  rcases addJob_trace_cases s j now with heq | heq <;> rw [heq]
  · exact cleanup_events_zero_of_absent s now id ha
  · simp [eventsFor]

theorem addJob_self_present (s : PollerState) (j : PollingJob) (now : Nat) :
    (mapGet (s.addJob j now).1.jobs j.id).isSome = true := by
  unfold PollerState.addJob
  by_cases hcap : maxJobs ≤ s.jobs.length
  · rw [if_pos hcap]
    simp [mapGet_mapSet_self]
  · rw [if_neg hcap]
    simp [mapGet_mapSet_self]

theorem addJob_state_ne_zero (s : PollerState) (j : PollingJob) (now : Nat) (id : String)
    (hid : id ≠ j.id) (h0 : eventsFor id (s.addJob j now).2 = 0) :
    mapGet (s.addJob j now).1.jobs id = mapGet s.jobs id := by
  unfold PollerState.addJob at h0 ⊢
  by_cases hcap : maxJobs ≤ s.jobs.length
  · rw [if_pos hcap] at h0 ⊢
    show mapGet (mapSet (s.cleanupOldJobs now).1.jobs j.id
        { j with startTime := now, retryCount := 0 }) id = mapGet s.jobs id
    rw [mapGet_mapSet_ne _ _ _ _ hid]
    exact cleanup_state_of_zero s now id h0
  · rw [if_neg hcap]
    exact mapGet_mapSet_ne _ _ _ _ hid

theorem addJob_state_ne_one (s : PollerState) (j : PollingJob) (now : Nat) (id : String)
    (hid : id ≠ j.id) (h1 : 1 ≤ eventsFor id (s.addJob j now).2) :
    mapGet (s.addJob j now).1.jobs id = none := by
  unfold PollerState.addJob at h1 ⊢
  by_cases hcap : maxJobs ≤ s.jobs.length
  · rw [if_pos hcap] at h1 ⊢
    show mapGet (mapSet (s.cleanupOldJobs now).1.jobs j.id
        { j with startTime := now, retryCount := 0 }) id = none
    rw [mapGet_mapSet_ne _ _ _ _ hid]
    exact cleanup_state_of_one s now id h1
  · rw [if_neg hcap] at h1
    simp [eventsFor] at h1

/-! tick and shutdown level facts. -/

theorem goodState_tick (s : PollerState) (c : MemoryCache StreamLink) (now : Nat)
    (info : String → Except DebridError TorrentInfo)
    (stream : String → Except DebridError StreamLink) (h : GoodState s) :
    GoodState (s.tick c now info stream).1 := by
  rw [tick_eq_fold]
  exact tickFold_good now info stream _ s c [] h

theorem snapshot_countP_le_one (s : PollerState) (id : String) (hG : GoodState s) :
    (s.jobs.map Prod.snd).countP (fun jb => decide (jb.id = id)) ≤ 1 := by
  rw [List.countP_map]
  have hcongr : s.jobs.countP ((fun jb => decide (jb.id = id)) ∘ Prod.snd)
      = s.jobs.countP (fun kv => decide (kv.1 = id)) := by
    refine countP_congr_mem _ _ _ ?_
    intro kv hkv
    simp only [Function.comp]
    rw [hG.2 kv hkv]
  rw [hcongr]
  exact countP_key_le_one _ _ hG.1

theorem tick_events (s : PollerState) (c : MemoryCache StreamLink) (now : Nat)
    (info : String → Except DebridError TorrentInfo)
    (stream : String → Except DebridError StreamLink) (id : String) (hG : GoodState s) :
    eventsFor id (s.tick c now info stream).2.2 ≤ 1 ∧
    (eventsFor id (s.tick c now info stream).2.2 = 0 →
      (mapGet (s.tick c now info stream).1.jobs id).isSome
        = (mapGet s.jobs id).isSome) ∧
    (1 ≤ eventsFor id (s.tick c now info stream).2.2 →
      mapGet (s.tick c now info stream).1.jobs id = none) := by
  rw [tick_eq_fold]
  exact tickFold_present now info stream _ s c id (snapshot_countP_le_one s id hG)

theorem tick_events_absent (s : PollerState) (c : MemoryCache StreamLink) (now : Nat)
    (info : String → Except DebridError TorrentInfo)
    (stream : String → Except DebridError StreamLink) (id : String) (hG : GoodState s)
    (ha : mapGet s.jobs id = none) :
    eventsFor id (s.tick c now info stream).2.2 = 0 ∧
    mapGet (s.tick c now info stream).1.jobs id = none := by
  rw [tick_eq_fold]
  have hall : ∀ jb ∈ s.jobs.map Prod.snd, jb.id ≠ id := by
    intro jb hjb
    rcases List.mem_map.mp hjb with ⟨kv, hkv, rfl⟩
    rw [hG.2 kv hkv]
    intro he
    exact (mapGet_eq_none_iff s.jobs id).mp ha (he ▸ List.mem_map.mpr ⟨kv, hkv, rfl⟩)
  have h := tickFold_absent now info stream _ s c id hall
  exact ⟨h.1, by rw [h.2]; exact ha⟩

theorem shutdown_eventsFor (s : PollerState) (id : String) :
    eventsFor id (s.shutdown).2 = s.jobs.countP (fun kv => decide (kv.1 = id)) :=
  eventsFor_keyed id s.jobs _

theorem shutdown_jobs (s : PollerState) : (s.shutdown).1.jobs = [] := rfl

/-! Unfolding equations for runOps and addCount, and small state facts. -/

theorem runOps_add_eq (s : PollerState) (c : MemoryCache StreamLink) (j : PollingJob)
    (now : Nat) (rest : List PollerOp) :
    PollerState.runOps (s, c) (PollerOp.add j now :: rest)
      = ((PollerState.runOps ((s.addJob j now).1, c) rest).1,
         (s.addJob j now).2 ++ (PollerState.runOps ((s.addJob j now).1, c) rest).2) := rfl

theorem runOps_remove_eq (s : PollerState) (c : MemoryCache StreamLink) (k : String)
    (rest : List PollerOp) :
    PollerState.runOps (s, c) (PollerOp.remove k :: rest)
      = PollerState.runOps (s.removeJob k, c) rest := rfl

theorem runOps_tick_eq (s : PollerState) (c : MemoryCache StreamLink) (now : Nat)
    (info : String → Except DebridError TorrentInfo)
    (stream : String → Except DebridError StreamLink) (rest : List PollerOp) :
    PollerState.runOps (s, c) (PollerOp.tick now info stream :: rest)
      = ((PollerState.runOps ((s.tick c now info stream).1,
            (s.tick c now info stream).2.1) rest).1,
         (s.tick c now info stream).2.2
           ++ (PollerState.runOps ((s.tick c now info stream).1,
                 (s.tick c now info stream).2.1) rest).2) := rfl

theorem runOps_shutdown_eq (s : PollerState) (c : MemoryCache StreamLink)
    (rest : List PollerOp) :
    PollerState.runOps (s, c) (PollerOp.shutdown :: rest)
      = ((PollerState.runOps ((s.shutdown).1, c) rest).1,
         (s.shutdown).2 ++ (PollerState.runOps ((s.shutdown).1, c) rest).2) := rfl

theorem addCount_add (id : String) (j : PollingJob) (now : Nat) (rest : List PollerOp) :
    addCount id (PollerOp.add j now :: rest)
      = (if j.id = id then 1 else 0) + addCount id rest := rfl

theorem addCount_remove (id : String) (k : String) (rest : List PollerOp) :
    addCount id (PollerOp.remove k :: rest) = addCount id rest := by
  simp [addCount]

theorem addCount_tick (id : String) (now : Nat)
    (info : String → Except DebridError TorrentInfo)
    (stream : String → Except DebridError StreamLink) (rest : List PollerOp) :
    addCount id (PollerOp.tick now info stream :: rest) = addCount id rest := by
  simp [addCount]

theorem addCount_shutdown (id : String) (rest : List PollerOp) :
    addCount id (PollerOp.shutdown :: rest) = addCount id rest := by
  simp [addCount]

theorem removeJob_absent (s : PollerState) (k : String) (id : String)
    (ha : mapGet s.jobs id = none) : mapGet (s.removeJob k).jobs id = none := by
  rw [removeJob_jobs]
  by_cases hk : id = k
  · rw [hk]
    exact mapGet_mapDelete_self _ _
  · rw [mapGet_mapDelete_ne _ _ _ hk]
    exact ha

theorem goodState_shutdown (s : PollerState) : GoodState (s.shutdown).1 :=
  ⟨List.nodup_nil, fun kv hkv => absurd hkv (List.not_mem_nil kv)⟩

/-! The trace inductions: the target id starts absent and is never
added, starts present with no further add, or starts absent with an add
budget of one. -/

theorem trace_absent_noadd (ops : List PollerOp) :
    ∀ (s : PollerState) (c : MemoryCache StreamLink) (id : String),
      GoodState s → mapGet s.jobs id = none → addCount id ops = 0 →
      eventsFor id (PollerState.runOps (s, c) ops).2 = 0 ∧
      mapGet (PollerState.runOps (s, c) ops).1.1.jobs id = none := by
  induction ops with
  | nil => intro s c id _ ha _; exact ⟨rfl, ha⟩
  | cons op rest ih =>
      intro s c id hG ha hadd
      cases op with
      | add j now =>
          rw [addCount_add] at hadd
          by_cases hj : j.id = id
          · rw [if_pos hj] at hadd
            omega
          · rw [if_neg hj] at hadd
            have hrest : addCount id rest = 0 := by omega
            have hid : id ≠ j.id := fun e => hj e.symm
            have hev0 := addJob_events_zero_of_absent s j now id ha
            have hstate := addJob_state_ne_zero s j now id hid hev0
            rw [runOps_add_eq, eventsFor_append, hev0, Nat.zero_add]
            exact ih (s.addJob j now).1 c id (goodState_addJob s j now hG)
              (by rw [hstate]; exact ha) hrest
      | remove k =>
          rw [addCount_remove] at hadd
          rw [runOps_remove_eq]
          exact ih _ c id (goodState_removeJob s k hG) (removeJob_absent s k id ha) hadd
      | tick now info stream =>
          rw [addCount_tick] at hadd
          have ht := tick_events_absent s c now info stream id hG ha
          rw [runOps_tick_eq, eventsFor_append, ht.1, Nat.zero_add]
          exact ih _ _ id (goodState_tick s c now info stream hG) ht.2 hadd
      | shutdown =>
          rw [addCount_shutdown] at hadd
          have hev : eventsFor id (s.shutdown).2 = 0 := by
            rw [shutdown_eventsFor]
            exact countP_key_eq_zero _ _ ha
          rw [runOps_shutdown_eq, eventsFor_append, hev, Nat.zero_add]
          exact ih _ c id (goodState_shutdown s) (by rw [shutdown_jobs]; rfl) hadd

theorem trace_present_noadd (ops : List PollerOp) :
    ∀ (s : PollerState) (c : MemoryCache StreamLink) (id : String),
      GoodState s → (mapGet s.jobs id).isSome = true → addCount id ops = 0 →
      eventsFor id (PollerState.runOps (s, c) ops).2 ≤ 1 ∧
      (1 ≤ eventsFor id (PollerState.runOps (s, c) ops).2 →
        mapGet (PollerState.runOps (s, c) ops).1.1.jobs id = none) := by
  induction ops with
  | nil =>
      intro s c id _ _ _
      refine ⟨Nat.zero_le 1, fun h => ?_⟩
      simp [eventsFor, PollerState.runOps] at h
  | cons op rest ih =>
      intro s c id hG hp hadd
      cases op with
      | add j now =>
          rw [addCount_add] at hadd
          by_cases hj : j.id = id
          · rw [if_pos hj] at hadd
            omega
          · rw [if_neg hj] at hadd
            have hrest : addCount id rest = 0 := by omega
            have hid : id ≠ j.id := fun e => hj e.symm
            have hev_le := addJob_events_le_one s j now id hG.1
            rw [runOps_add_eq, eventsFor_append]
            by_cases hz : eventsFor id (s.addJob j now).2 = 0
            · have hstate := addJob_state_ne_zero s j now id hid hz
              have hrec := ih (s.addJob j now).1 c id (goodState_addJob s j now hG)
                (by rw [hstate]; exact hp) hrest
              rw [hz, Nat.zero_add]
              exact hrec
            · have h1 : 1 ≤ eventsFor id (s.addJob j now).2 :=
                Nat.one_le_iff_ne_zero.mpr hz
              have hstate := addJob_state_ne_one s j now id hid h1
              have hrec := trace_absent_noadd rest (s.addJob j now).1 c id
                (goodState_addJob s j now hG) hstate hrest
              refine ⟨?_, fun _ => hrec.2⟩
              rw [hrec.1, Nat.add_zero]
              exact hev_le
      | remove k =>
          rw [addCount_remove] at hadd
          rw [runOps_remove_eq]
          by_cases hk : id = k
          · have habs : mapGet (s.removeJob k).jobs id = none := by
              rw [removeJob_jobs, hk]
              exact mapGet_mapDelete_self _ _
            have hrec := trace_absent_noadd rest _ c id (goodState_removeJob s k hG)
              habs hadd
            refine ⟨?_, fun _ => hrec.2⟩
            rw [hrec.1]
            exact Nat.zero_le 1
          · have hpres : (mapGet (s.removeJob k).jobs id).isSome = true := by
              rw [removeJob_jobs, mapGet_mapDelete_ne _ _ _ hk]
              exact hp
            exact ih _ c id (goodState_removeJob s k hG) hpres hadd
      | tick now info stream =>
          rw [addCount_tick] at hadd
          have ht := tick_events s c now info stream id hG
          rw [runOps_tick_eq, eventsFor_append]
          by_cases hz : eventsFor id (s.tick c now info stream).2.2 = 0
          · have hpres : (mapGet (s.tick c now info stream).1.jobs id).isSome = true := by
              rw [ht.2.1 hz]
              exact hp
            have hrec := ih (s.tick c now info stream).1 (s.tick c now info stream).2.1 id
              (goodState_tick s c now info stream hG) hpres hadd
            rw [hz, Nat.zero_add]
            exact hrec
          · have h1 : 1 ≤ eventsFor id (s.tick c now info stream).2.2 :=
              Nat.one_le_iff_ne_zero.mpr hz
            have habs := ht.2.2 h1
            have hrec := trace_absent_noadd rest (s.tick c now info stream).1
              (s.tick c now info stream).2.1 id
              (goodState_tick s c now info stream hG) habs hadd
            refine ⟨?_, fun _ => hrec.2⟩
            rw [hrec.1, Nat.add_zero]
            exact ht.1
      | shutdown =>
          rw [addCount_shutdown] at hadd
          have hev_le : eventsFor id (s.shutdown).2 ≤ 1 := by
            rw [shutdown_eventsFor]
            exact countP_key_le_one _ _ hG.1
          have hrec := trace_absent_noadd rest _ c id (goodState_shutdown s)
            (by rw [shutdown_jobs]; rfl) hadd
          rw [runOps_shutdown_eq, eventsFor_append]
          refine ⟨?_, fun _ => hrec.2⟩
          rw [hrec.1, Nat.add_zero]
          exact hev_le

theorem trace_absent_budget (ops : List PollerOp) :
    ∀ (s : PollerState) (c : MemoryCache StreamLink) (id : String),
      GoodState s → mapGet s.jobs id = none → addCount id ops ≤ 1 →
      eventsFor id (PollerState.runOps (s, c) ops).2 ≤ 1 ∧
      (1 ≤ eventsFor id (PollerState.runOps (s, c) ops).2 →
        mapGet (PollerState.runOps (s, c) ops).1.1.jobs id = none) := by
  induction ops with
  | nil =>
      intro s c id _ ha _
      refine ⟨Nat.zero_le 1, fun _ => ha⟩
  | cons op rest ih =>
      intro s c id hG ha hadd
      cases op with
      | add j now =>
          rw [addCount_add] at hadd
          have hev0 := addJob_events_zero_of_absent s j now id ha
          rw [runOps_add_eq, eventsFor_append, hev0, Nat.zero_add]
          by_cases hj : j.id = id
          · have hrest0 : addCount id rest = 0 := by
              rw [if_pos hj] at hadd
              omega
            have hpres : (mapGet (s.addJob j now).1.jobs id).isSome = true := by
              rw [← hj]
              exact addJob_self_present s j now
            exact trace_present_noadd rest _ c id (goodState_addJob s j now hG)
              hpres hrest0
          · have hrest : addCount id rest ≤ 1 := by
              rw [if_neg hj] at hadd
              omega
            have hid : id ≠ j.id := fun e => hj e.symm
            have hstate := addJob_state_ne_zero s j now id hid hev0
            exact ih _ c id (goodState_addJob s j now hG) (by rw [hstate]; exact ha) hrest
      | remove k =>
          rw [addCount_remove] at hadd
          rw [runOps_remove_eq]
          exact ih _ c id (goodState_removeJob s k hG) (removeJob_absent s k id ha) hadd
      | tick now info stream =>
          rw [addCount_tick] at hadd
          have ht := tick_events_absent s c now info stream id hG ha
          rw [runOps_tick_eq, eventsFor_append, ht.1, Nat.zero_add]
          exact ih _ _ id (goodState_tick s c now info stream hG) ht.2 hadd
      | shutdown =>
          rw [addCount_shutdown] at hadd
          have hev : eventsFor id (s.shutdown).2 = 0 := by
            rw [shutdown_eventsFor]
            exact countP_key_eq_zero _ _ ha
          rw [runOps_shutdown_eq, eventsFor_append, hev, Nat.zero_add]
          exact ih _ c id (goodState_shutdown s) (by rw [shutdown_jobs]; rfl) hadd

/-- C8. Over any sequence of scheduler operations in which a job id is
added at most once, at most one callback ever fires for that id, and
whenever one has fired the job is no longer in the job set: taking the
sequence to be any prefix of a longer run shows the job is gone
immediately after the operation that fired its callback. This covers
the timeout escape, the failure terminal statuses, the stream link
failure path, eviction during addJob, and shutdown. -/
theorem poller_at_most_once (ops : List PollerOp) (id : String)
    (hadd : addCount id ops ≤ 1) :
    eventsFor id (PollerState.runOps (initialPoller, []) ops).2 ≤ 1 ∧
    (1 ≤ eventsFor id (PollerState.runOps (initialPoller, []) ops).2 →
      mapGet (PollerState.runOps (initialPoller, []) ops).1.1.jobs id = none) :=
  trace_absent_budget ops initialPoller [] id
    ⟨List.nodup_nil, fun kv hkv => absurd hkv (List.not_mem_nil kv)⟩ rfl hadd

/-- A concrete run for the C8 witness: one add, then a tick that
completes the job. -/
def opsW : List PollerOp :=
  [PollerOp.add jSample 0,
   PollerOp.tick 5 (fun _ => Except.ok tiDone) (fun _ => Except.ok slSample)]

/-- Witness for C8 on the concrete run: the job fires once and is gone. -/
theorem poller_at_most_once_witness :
    addCount "jw" opsW ≤ 1 ∧
    (eventsFor "jw" (PollerState.runOps (initialPoller, []) opsW).2 ≤ 1 ∧
     (1 ≤ eventsFor "jw" (PollerState.runOps (initialPoller, []) opsW).2 →
       mapGet (PollerState.runOps (initialPoller, []) opsW).1.1.jobs "jw" = none)) :=
  ⟨by decide, poller_at_most_once opsW "jw" (by decide)⟩

end Heimdall
